import Mathlib

/-!
# Connection pool of `mcgo` (`pool.go`)

A shallow embedding of `NewPool`, `Pool.Get`, `Pool.Release`, `Pool.Close`,
`Conn.Release`, `Conn.Close` and `connect`, followed by the properties of the
pool proved about it.

Modelling conventions.

* A Go `map[string]V` is an association list `GoMap V`; a missing key reads as
  the zero value of `V` (a nil slice, a nil map, a nil channel).
* A `*Conn` is the record it points to together with its heap identity `ptr`.
  The in-use set `map[*Conn]struct{}` is a duplicate-free list.
* A `chan struct{}` is its capacity and the number of buffered elements.
* `sync.Mutex` is one boolean. The section of `Get` between `Lock` and
  `Unlock` and the body of `Release` are atomic steps.
* `net.Dial` and the arbitration of a `select` with several ready cases are
  supplied by an environment `Env`; theorems quantify over it. The order of a
  `range` over a map and the errors of closing transports come from `CloseEnv`.
* `uint32` is `Nat`; `int(MaxConnPerNode)` is the same number (64 bit `int`).
* Calls to the logger do not touch the pool and are left out.
-/

namespace Mcgo

/-! ## Go maps -/

/-- A Go map with string keys, as an association list with distinct keys. -/
abbrev GoMap (V : Type) := List (String × V)

/-- The read `m[k]` in its comma-ok form. -/
def GoMap.get? {V : Type} : GoMap V → String → Option V
  | [], _ => none
  | (k', v) :: t, k => if k' = k then some v else GoMap.get? t k

/-- The assignment `m[k] = v`. -/
def GoMap.set {V : Type} : GoMap V → String → V → GoMap V
  | [], k, v => [(k, v)]
  | (k', v') :: t, k, v => if k' = k then (k, v) :: t else (k', v') :: GoMap.set t k v

/-! ## Data model -/

/-- A Go `error` value: a leaf error or `fmt.Errorf(text ++ "%w", inner)`. -/
inductive GoError where
  | leaf (msg : String)
  | wrapf (text : String) (inner : GoError)
  deriving DecidableEq, Repr

/-- The method `Error()` of an error value. -/
def GoError.Error : GoError → String
  | .leaf msg => msg
  | .wrapf text inner => text ++ inner.Error

/-- The function `errors.Unwrap`. -/
def GoError.Unwrap : GoError → Option GoError
  | .leaf _ => none
  | .wrapf _ inner => some inner

/-- The struct `Conn` behind a `*Conn`; `ptr` is the identity of the pointer,
`cnn` the transport handle (`rw` is built from it) and `pool` the address of
the owning `Pool`. -/
structure Conn where
  ptr : Nat
  Addr : String
  cnn : Nat
  pool : Nat
  deriving DecidableEq, Repr

/-- The struct `poolconfig`. -/
structure poolconfig where
  MaxConnPerNode : Nat
  deriving DecidableEq, Repr

/-- A buffered `chan struct{}`: capacity and number of buffered elements. -/
structure Chan where
  cap : Nat
  len : Nat
  deriving DecidableEq, Repr

/-- The struct `Pool`. `self` is the address of the value (what the receiver
`n` denotes), `lock` tells whether the mutex is held and `nextPtr` is the
allocation counter standing for the heap: `&Conn{...}` yields `nextPtr`. -/
structure Pool where
  self : Nat
  addrs : List String
  freeConns : GoMap (List Conn)
  freeConnStream : GoMap Chan
  usedConns : GoMap (List Conn)
  lock : Bool
  cfg : poolconfig
  nextPtr : Nat
  deriving DecidableEq, Repr

/-- The free list of an address (`n.freeConns[addr]`, nil when absent). -/
def Pool.free (n : Pool) (addr : String) : List Conn :=
  (n.freeConns.get? addr).getD []

/-- The in-use set of an address (`n.usedConns[addr]`, nil when absent). -/
def Pool.inUse (n : Pool) (addr : String) : List Conn :=
  (n.usedConns.get? addr).getD []

/-- Number of notifications buffered on the signal channel of an address. -/
def Pool.buffered (n : Pool) (addr : String) : Nat :=
  match n.freeConnStream.get? addr with
  | some ch => ch.len
  | none => 0

/-- Capacity of the signal channel of an address (0 for a nil channel). -/
def Pool.chanCap (n : Pool) (addr : String) : Nat :=
  match n.freeConnStream.get? addr with
  | some ch => ch.cap
  | none => 0

/-! ## Construction -/

/-- The function `defaultPoolConfig`. -/
def defaultPoolConfig : poolconfig := { MaxConnPerNode := 10 }

/-- The type `poolOpt`. -/
abbrev poolOpt := poolconfig → poolconfig

/-- The function `WithOptMaxConnPerNode`. -/
def WithOptMaxConnPerNode (num : Nat) : poolOpt := fun p =>
  if num > 0 then { p with MaxConnPerNode := num } else p

/-- The loop `for _, addr := range addrs` of `NewPool`. -/
def NewPool.fill (cfg : poolconfig) : List String → Pool → Pool
  | [], pool => pool
  | addr :: rest, pool =>
    NewPool.fill cfg rest
      { pool with
        freeConns := pool.freeConns.set addr []
        usedConns := pool.usedConns.set addr []
        freeConnStream := pool.freeConnStream.set addr { cap := cfg.MaxConnPerNode, len := 0 } }

/-- The function `NewPool`; `self` is the address of the allocated `Pool`.
The second component is the returned error. -/
def NewPool (self : Nat) (addrs : List String) (opts : List poolOpt) : Pool × Option GoError :=
  let cfg := opts.foldl (fun c fn => fn c) defaultPoolConfig
  let pool : Pool :=
    { self := self, addrs := addrs, freeConns := [], freeConnStream := [], usedConns := [],
      lock := false, cfg := cfg, nextPtr := 0 }
  (NewPool.fill cfg addrs pool, none)

/-! ## Execution of one call -/

/-- Observable steps of a call, in program order. -/
inductive Event where
  | lock
  | unlock
  | dial (addr : String)
  | recv (addr : String)
  | send (addr : String)
  | ctxDone
  deriving DecidableEq, Repr

/-- How a call ends: it returns, or it stays blocked on the mutex, on the
`select` of `Get`, or on the channel send of `Release`, or it panics.
`fuelOut` is the exhaustion of the recursion budget of the model. -/
inductive Exit where
  | returned (cn : Option Conn) (err : Option GoError)
  | blockedLock
  | blockedSelect
  | blockedSend
  | panicked
  | fuelOut
  deriving DecidableEq, Repr

/-- The outcome of a call: how it ended, the pool afterwards and the steps
taken. -/
structure Result where
  exit : Exit
  pool : Pool
  trace : List Event
  deriving DecidableEq, Repr

/-- What a call depends on outside the pool: the outcome of `net.Dial` for an
address, and the choice made by `select` when both the context and the channel
are ready (`pickCtx k` with `k` notifications buffered). -/
structure Env where
  dial : String → Except GoError Nat
  pickCtx : Nat → Bool

/-- The function `connect`: the new connection or the wrapped dial error. -/
def connect (env : Env) (n : Pool) (addr : String) : Except GoError Conn :=
  match env.dial addr with
  | .error e => .error (.wrapf "dial failed: " e)
  | .ok tcp => .ok { ptr := n.nextPtr, Addr := addr, cnn := tcp, pool := n.self }

/-- The statement `n.usedConns[addr][cn] = struct{}{}`; `none` is the panic of
an assignment to an entry of a nil map. -/
def Pool.markUsed (n : Pool) (addr : String) (cn : Conn) : Option Pool :=
  match n.usedConns.get? addr with
  | none => none
  | some s => some { n with usedConns := n.usedConns.set addr (if cn ∈ s then s else s ++ [cn]) }

/-- The `select` of `Get` and what follows it; `again` is the recursive call
`n.Get(ctx, addr)`. A receive on a nil channel is never ready. -/
def Pool.selectWait (env : Env) (again : Pool → Result) (n : Pool)
    (ctx : Option GoError) (addr : String) : Result :=
  let recvReady : Bool :=
    match n.freeConnStream.get? addr with
    | some ch => decide (0 < ch.len)
    | none => false
  let takeCtx : Bool :=
    match ctx with
    | some _ => !recvReady || env.pickCtx (n.buffered addr)
    | none => false
  if takeCtx then
    { exit := .returned none ctx, pool := n, trace := [.ctxDone] }
  else
    match n.freeConnStream.get? addr with
    | some ch =>
      if 0 < ch.len then
        let r := again { n with freeConnStream := n.freeConnStream.set addr { ch with len := ch.len - 1 } }
        { r with trace := .recv addr :: r.trace }
      else
        { exit := .blockedSelect, pool := n, trace := [] }
    | none => { exit := .blockedSelect, pool := n, trace := [] }

/-- The body of `Pool.Get`, with `again` for the recursive call. -/
def Pool.GetBody (env : Env) (again : Pool → Result) (n : Pool)
    (ctx : Option GoError) (addr : String) : Result :=
  if n.lock then
    { exit := .blockedLock, pool := n, trace := [] }
  else
    let n1 := { n with lock := true }
    match n1.freeConns.get? addr with
    | some (cn :: cnns) =>
      let n2 := { n1 with freeConns := n1.freeConns.set addr cnns }
      match n2.markUsed addr cn with
      | none => { exit := .panicked, pool := n2, trace := [.lock] }
      | some n3 =>
        { exit := .returned (some cn) none, pool := { n3 with lock := false },
          trace := [.lock, .unlock] }
    | _ =>
      if (n1.inUse addr).length < n1.cfg.MaxConnPerNode then
        match connect env n1 addr with
        | .error e =>
          { exit := .returned none (some e), pool := { n1 with lock := false },
            trace := [.lock, .dial addr, .unlock] }
        | .ok cn =>
          let n2 := { n1 with nextPtr := n1.nextPtr + 1 }
          match n2.markUsed addr cn with
          | none => { exit := .panicked, pool := n2, trace := [.lock, .dial addr] }
          | some n3 =>
            { exit := .returned (some cn) none, pool := { n3 with lock := false },
              trace := [.lock, .dial addr, .unlock] }
      else
        let r := Pool.selectWait env again { n1 with lock := false } ctx addr
        { r with trace := .lock :: .unlock :: r.trace }

/-- The method `Pool.Get` with a bound on the depth of its self-recursion. -/
def Pool.GetAux (env : Env) (ctx : Option GoError) (addr : String) : Nat → Pool → Result
  | 0, n => Pool.GetBody env (fun m => { exit := .fuelOut, pool := m, trace := [] }) n ctx addr
  | fuel + 1, n => Pool.GetBody env (Pool.GetAux env ctx addr fuel) n ctx addr

/-- The method `Pool.Get`. `ctx` is `ctx.Err()`: `none` while the context is
live. Every recursive call follows the receipt of one buffered notification,
so the number of buffered notifications bounds the depth. -/
def Pool.Get (env : Env) (n : Pool) (ctx : Option GoError) (addr : String) : Result :=
  Pool.GetAux env ctx addr (n.buffered addr) n

/-- A `Get` parked in its `select` takes its next step in the pool `n`: the
`select` is evaluated again, and a received notification leads to the
recursive call. -/
def Pool.resume (env : Env) (n : Pool) (ctx : Option GoError) (addr : String) : Result :=
  Pool.selectWait env (fun m => Pool.Get env m ctx addr) n ctx addr

/-- The method `Pool.Release`. The deferred `Unlock` runs only when the send
has completed. -/
def Pool.Release (n : Pool) (cnn : Conn) : Result :=
  if n.lock then
    { exit := .blockedLock, pool := n, trace := [] }
  else
    let n1 := { n with lock := true }
    let n2 := { n1 with freeConns := n1.freeConns.set cnn.Addr (n1.free cnn.Addr ++ [cnn]) }
    let n3 : Pool :=
      match n2.usedConns.get? cnn.Addr with
      | some s => { n2 with usedConns := n2.usedConns.set cnn.Addr (s.filter (fun x => decide (x ≠ cnn))) }
      | none => n2
    match n3.freeConnStream.get? cnn.Addr with
    | some ch =>
      if ch.len < ch.cap then
        { exit := .returned none none,
          pool := { n3 with
            freeConnStream := n3.freeConnStream.set cnn.Addr { ch with len := ch.len + 1 }
            lock := false },
          trace := [.lock, .send cnn.Addr, .unlock] }
      else
        { exit := .blockedSend, pool := n3, trace := [.lock] }
    | none => { exit := .blockedSend, pool := n3, trace := [.lock] }

/-- The method `Conn.Release`: `c.pool.Release(c)`. `deref` reads the heap at
a pool address; `none` is the panic of a nil dereference. -/
def Conn.Release (deref : Nat → Option Pool) (c : Conn) : Option Result :=
  match deref c.pool with
  | none => none
  | some n => some (Pool.Release n c)

/-! ## Teardown -/

/-- What `Close` depends on outside the pool: the order in which `range`
yields the entries of a map and the elements of a set, which Go leaves
unspecified, and the error `cnn.Close()` gives for a connection. -/
structure CloseEnv where
  rangeMap : GoMap (List Conn) → GoMap (List Conn)
  rangeSet : List Conn → List Conn
  closeErr : Conn → Option GoError

/-- A `range` yields every entry once: the order is a permutation. -/
def CloseEnv.Fair (env : CloseEnv) : Prop :=
  (∀ m, (env.rangeMap m).Perm m) ∧ (∀ s, (env.rangeSet s).Perm s)

/-- The method `Conn.Close`: flush, then the error of closing the transport. -/
def Conn.Close (env : CloseEnv) (c : Conn) : Option GoError :=
  env.closeErr c

/-- The outcome of `Close`: how it ended, the pool afterwards, and the
connections `Conn.Close` was called on, in order, each with its result. -/
structure CloseResult where
  exit : Exit
  pool : Pool
  closes : List (Conn × Option GoError)

/-- The two loops of `Pool.Close`, first over `freeConns`, then over
`usedConns`; the result of each `cn.Close()` is dropped by the caller. -/
def Pool.closeLoops (env : CloseEnv) (n : Pool) : List (Conn × Option GoError) :=
  (env.rangeMap n.freeConns).flatMap (fun e => e.2.map (fun cn => (cn, Conn.Close env cn))) ++
  (env.rangeMap n.usedConns).flatMap
    (fun e => (env.rangeSet e.2).map (fun cn => (cn, Conn.Close env cn)))

/-- The method `Pool.Close`. -/
def Pool.Close (env : CloseEnv) (n : Pool) : CloseResult :=
  if n.lock then
    { exit := .blockedLock, pool := n, closes := [] }
  else
    { exit := .returned none none, pool := { n with lock := false },
      closes := Pool.closeLoops env n }

/-! ## The mutex along a trace -/

/-- Whether the mutex is held after an event, given whether it was before. -/
def Event.heldAfter (held : Bool) : Event → Bool
  | .lock => true
  | .unlock => false
  | _ => held

/-- Every event of a trace paired with whether the mutex is held when it
happens; `held` tells whether it is at the start. -/
def lockedAt : Bool → List Event → List (Bool × Event)
  | _, [] => []
  | held, e :: t => (held, e) :: lockedAt (e.heldAfter held) t

/-- The number of times `Get` called itself: one per received notification. -/
def retries (A : String) (tr : List Event) : Nat :=
  tr.count (Event.recv A)

/-- The mutex along a call of `Get` entered with the mutex free: it is not held
when a notification is received or the context is taken, it is held at a dial,
and it is free once the call is parked in `select` or has returned. -/
def Result.Disciplined (r : Result) : Prop :=
  (∀ held ev, (held, ev) ∈ lockedAt false r.trace →
    (ev = .ctxDone ∨ ∃ a, ev = .recv a) → held = false) ∧
  (∀ held a, (held, Event.dial a) ∈ lockedAt false r.trace → held = true) ∧
  (r.exit = .blockedSelect → r.pool.lock = false) ∧
  (∀ cn err, r.exit = .returned cn err → r.pool.lock = false)

/-! ## Predicates on pools -/

/-- The address has its three bookkeeping entries, as `NewPool` creates them
for every supplied address. -/
def Pool.Configured (n : Pool) (A : String) : Prop :=
  (n.freeConns.get? A).isSome = true ∧ (n.usedConns.get? A).isSome = true ∧
  (n.freeConnStream.get? A).isSome = true

/-- Exclusivity: no connection is both idle and in use, no free list holds a
connection twice, and a connection tracked under an address carries it. -/
def Pool.Exclusive (n : Pool) : Prop :=
  (∀ A B c, c ∈ n.free A → c ∉ n.inUse B) ∧ (∀ A, (n.free A).Nodup) ∧
  (∀ A c, c ∈ n.free A ∨ c ∈ n.inUse A → c.Addr = A)

/-- Every tracked connection was allocated before the next allocation. -/
def Pool.Allocated (n : Pool) : Prop :=
  ∀ A c, c ∈ n.free A ∨ c ∈ n.inUse A → c.ptr < n.nextPtr

/-- The bookkeeping invariant of the pool for the cap `max`. -/
structure Inv (max : Nat) (n : Pool) : Prop where
  cfg : n.cfg.MaxConnPerNode = max
  cap : ∀ A, (n.free A).length + (n.inUse A).length ≤ max
  excl : ∀ A B c, c ∈ n.free A → c ∉ n.inUse B
  nodup : ∀ A, (n.free A).Nodup
  addr : ∀ A c, c ∈ n.free A ∨ c ∈ n.inUse A → c.Addr = A
  fresh : ∀ A c, c ∈ n.free A ∨ c ∈ n.inUse A → c.ptr < n.nextPtr

/-- The entries `NewPool` creates: every supplied address has a free list, an
in-use set and a channel of capacity `max`. -/
structure Keys (max : Nat) (addrs : List String) (n : Pool) : Prop where
  cfg : n.cfg.MaxConnPerNode = max
  free : ∀ A ∈ addrs, (n.freeConns.get? A).isSome = true
  used : ∀ A ∈ addrs, (n.usedConns.get? A).isSome = true
  chan : ∀ A ∈ addrs, ∃ ch, n.freeConnStream.get? A = some ch ∧ ch.cap = max

/-- The shape of the maps of a pool built by `NewPool addrs`: no entry outside
the supplied addresses, distinct keys, duplicate-free in-use sets, and no
channel holding more than its capacity. -/
structure Shape (addrs : List String) (n : Pool) : Prop where
  freeKeys : ∀ A, A ∉ addrs → n.freeConns.get? A = none
  usedKeys : ∀ A, A ∉ addrs → n.usedConns.get? A = none
  chanKeys : ∀ A, A ∉ addrs → n.freeConnStream.get? A = none
  chanLen : ∀ A ch, n.freeConnStream.get? A = some ch → ch.len ≤ ch.cap
  usedNodup : ∀ A, (n.inUse A).Nodup
  freeDistinct : (n.freeConns.map Prod.fst).Nodup
  usedDistinct : (n.usedConns.map Prod.fst).Nodup

/-- The pool `m` agrees with `n` on the address list, on the configuration and
on the free list, in-use set and channel of every address other than `A`. -/
def Pool.SameElsewhere (A : String) (n m : Pool) : Prop :=
  m.addrs = n.addrs ∧ m.cfg = n.cfg ∧
  ∀ B, B ≠ A → m.free B = n.free B ∧ m.inUse B = n.inUse B ∧
    m.freeConnStream.get? B = n.freeConnStream.get? B

/-- The pool once an unlocked `Get` has received one notification from `ch`,
the channel of `A`. -/
def Pool.afterRecv (n : Pool) (A : String) (ch : Chan) : Pool :=
  { n with lock := false, freeConnStream := n.freeConnStream.set A { ch with len := ch.len - 1 } }

/-- The pools reachable from `NewPool self addrs opts` by calls of `Get`, by
steps of parked `Get` calls and by calls of `Release` on a connection that is
in the in-use set of its own address. A call that stays blocked or panics
leaves the pool it reached. -/
inductive Reachable (self : Nat) (addrs : List String) (opts : List poolOpt) : Pool → Prop where
  | init : Reachable self addrs opts (NewPool self addrs opts).1
  | get {n : Pool} (env : Env) (ctx : Option GoError) (addr : String) :
      Reachable self addrs opts n → Reachable self addrs opts (Pool.Get env n ctx addr).pool
  | resume {n : Pool} (env : Env) (ctx : Option GoError) (addr : String) :
      Reachable self addrs opts n → Reachable self addrs opts (Pool.resume env n ctx addr).pool
  | release {n : Pool} (c : Conn) :
      Reachable self addrs opts n → c ∈ n.inUse c.Addr →
      Reachable self addrs opts (Pool.Release n c).pool

/-! ## Concrete runs -/

namespace Scenario

/-- Every dial succeeds; a `select` with two ready cases takes the channel. -/
def dialOk : Env := { dial := fun _ => .ok 7, pickCtx := fun _ => false }

/-- Every dial fails; a `select` with two ready cases takes the context. -/
def dialFail : Env :=
  { dial := fun _ => .error (.leaf "connection refused"), pickCtx := fun _ => true }

/-- The error of a cancelled context. -/
def canceled : GoError := .leaf "context canceled"

/-- One address, at most one connection. -/
def pool1 : Pool := (NewPool 1 ["a:1"] [WithOptMaxConnPerNode 1]).1

/-- Two addresses, at most two connections each. -/
def pool2 : Pool := (NewPool 1 ["a:1", "b:1"] [WithOptMaxConnPerNode 2]).1

/-- The first connection dialled to `a:1`. -/
def connA0 : Conn := { ptr := 0, Addr := "a:1", cnn := 7, pool := 1 }

/-- The second connection dialled to `a:1`. -/
def connA1 : Conn := { ptr := 1, Addr := "a:1", cnn := 7, pool := 1 }

/-- The state of `pool1` after one `Get`: `connA0` is in use. -/
def pool1Busy : Pool := (Pool.Get dialOk pool1 none "a:1").pool

/-- The state of `pool1` after `Get`, `Release`, `Get`: `connA0` is in use and
one notification is buffered. -/
def pool1Cycled : Pool :=
  (Pool.Get dialOk (Pool.Release pool1Busy connA0).pool none "a:1").pool

/-- The state of `pool2` after two `Get` on `a:1`: both connections in use. -/
def pool2Busy : Pool :=
  (Pool.Get dialOk (Pool.Get dialOk pool2 none "a:1").pool none "a:1").pool

/-- The state of `pool2` after two `Get` and the `Release` of `connA0`. -/
def pool2OneIdle : Pool := (Pool.Release pool2Busy connA0).pool

/-- The state of `pool2` after two `Get` and the `Release` of `connA0`, then
of `connA1`: the free list is `[connA0, connA1]`. -/
def pool2Idle : Pool := (Pool.Release pool2OneIdle connA1).pool

/-- The state of `pool2` after two `Get` and two `Release` of `connA0`. -/
def pool2Double : Pool := (Pool.Release pool2OneIdle connA0).pool

/-- A teardown in which every `range` runs backwards and closing the transport
of `connA0` fails. -/
def closeBackwards : CloseEnv :=
  { rangeMap := List.reverse, rangeSet := List.reverse,
    closeErr := fun c => if c.ptr = 0 then some (.leaf "use of closed network connection") else none }

end Scenario

/-! ## Map and invariant lemmas -/

theorem GoMap.get?_set {V : Type} (m : GoMap V) (k k2 : String) (v : V) :
    (GoMap.set m k v).get? k2 = if k = k2 then some v else m.get? k2 := by
  induction m with
  | nil => simp [GoMap.set, GoMap.get?]
  | cons hd t ih =>
    obtain ⟨k1, v1⟩ := hd
    by_cases h1 : k1 = k
    · subst h1
      by_cases h2 : k1 = k2 <;> simp [GoMap.set, GoMap.get?, h2]
    · by_cases h2 : k1 = k2
      · subst h2
        have h3 : ¬ k = k1 := fun h => h1 h.symm
        simp [GoMap.set, GoMap.get?, h1, h3]
      · simp [GoMap.set, GoMap.get?, h1, h2, ih]


/-- Two pools with the same lists, cap and allocation bound share the invariant. -/
theorem Inv.congr {max : Nat} {n m : Pool} (h : Inv max n)
    (hf : ∀ A, m.free A = n.free A) (hu : ∀ A, m.inUse A = n.inUse A)
    (hc : m.cfg = n.cfg) (hp : n.nextPtr ≤ m.nextPtr) : Inv max m := by
  refine ⟨by rw [hc]; exact h.cfg, ?_, ?_, ?_, ?_, ?_⟩
  · intro A; rw [hf, hu]; exact h.cap A
  · intro A B c; rw [hf, hu]; exact h.excl A B c
  · intro A; rw [hf]; exact h.nodup A
  · intro A c; rw [hf, hu]; exact h.addr A c
  · intro A c hc2; rw [hf, hu] at hc2; exact lt_of_lt_of_le (h.fresh A c hc2) hp


theorem Inv.pop {max : Nat} {n m : Pool} {A : String} {cn : Conn} {cnns : List Conn}
    (h : Inv max n) (hfree : n.free A = cn :: cnns)
    (hf : ∀ B, m.free B = if A = B then cnns else n.free B)
    (hu : ∀ B, m.inUse B = if A = B then
        (if cn ∈ n.inUse A then n.inUse A else n.inUse A ++ [cn]) else n.inUse B)
    (hc : m.cfg = n.cfg) (hp : n.nextPtr ≤ m.nextPtr) : Inv max m := by
  have hnd := h.nodup A
  rw [hfree] at hnd
  have hcn : cn ∈ n.free A := by rw [hfree]; exact List.mem_cons_self _ _
  have hsub : ∀ x, x ∈ cnns → x ∈ n.free A := fun x hx => by
    rw [hfree]; exact List.mem_cons_of_mem _ hx
  have hmemf : ∀ B x, x ∈ m.free B → x ∈ n.free B := by
    intro B x hx
    rw [hf] at hx
    by_cases hAB : A = B
    · subst hAB; simp at hx; exact hsub x hx
    · simpa [hAB] using hx
  have hmemu : ∀ B x, x ∈ m.inUse B → x ∈ n.inUse B ∨ (x = cn ∧ A = B) := by
    intro B x hx
    rw [hu] at hx
    by_cases hAB : A = B
    · subst hAB
      by_cases hin : cn ∈ n.inUse A
      · simp [hin] at hx; exact Or.inl hx
      · simp [hin] at hx
        rcases hx with hx | hx
        · exact Or.inl hx
        · exact Or.inr ⟨hx, rfl⟩
    · simp [hAB] at hx; exact Or.inl hx
  refine ⟨by rw [hc]; exact h.cfg, ?_, ?_, ?_, ?_, ?_⟩
  · intro B
    rw [hf, hu]
    by_cases hAB : A = B
    · subst hAB
      have := h.cap A
      rw [hfree] at this
      by_cases hin : cn ∈ n.inUse A <;> simp [hin] at this ⊢ <;> omega
    · simpa [hAB] using h.cap B
  · intro B C x hx hx2
    rcases hmemu C x hx2 with hx3 | ⟨rfl, rfl⟩
    · exact h.excl B C x (hmemf B x hx) hx3
    · have hB : x.Addr = B := h.addr B x (Or.inl (hmemf B x hx))
      have hA : x.Addr = A := h.addr A x (Or.inl hcn)
      have hBA : A = B := hA.symm.trans hB
      subst hBA
      rw [hf] at hx
      simp at hx
      exact (List.nodup_cons.mp hnd).1 hx
  · intro B
    rw [hf]
    by_cases hAB : A = B
    · subst hAB; simp only [if_true]; exact (List.nodup_cons.mp hnd).2
    · simpa [hAB] using h.nodup B
  · intro B x hx
    rcases hx with hx | hx
    · exact h.addr B x (Or.inl (hmemf B x hx))
    · rcases hmemu B x hx with hx3 | ⟨rfl, rfl⟩
      · exact h.addr B x (Or.inr hx3)
      · exact h.addr A x (Or.inl hcn)
  · intro B x hx
    refine lt_of_lt_of_le ?_ hp
    rcases hx with hx | hx
    · exact h.fresh B x (Or.inl (hmemf B x hx))
    · rcases hmemu B x hx with hx3 | ⟨rfl, rfl⟩
      · exact h.fresh B x (Or.inr hx3)
      · exact h.fresh A x (Or.inl hcn)

theorem Inv.drop {max : Nat} {n m : Pool} {A : String} {cn : Conn} {cnns : List Conn}
    (h : Inv max n) (hfree : n.free A = cn :: cnns)
    (hf : ∀ B, m.free B = if A = B then cnns else n.free B)
    (hu : ∀ B, m.inUse B = n.inUse B)
    (hc : m.cfg = n.cfg) (hp : n.nextPtr ≤ m.nextPtr) : Inv max m := by
  have hnd := h.nodup A
  rw [hfree] at hnd
  have hmemf : ∀ B x, x ∈ m.free B → x ∈ n.free B := by
    intro B x hx
    rw [hf] at hx
    by_cases hAB : A = B
    · subst hAB; simp at hx; rw [hfree]; exact List.mem_cons_of_mem _ hx
    · simpa [hAB] using hx
  refine ⟨by rw [hc]; exact h.cfg, ?_, ?_, ?_, ?_, ?_⟩
  · intro B
    rw [hf, hu]
    by_cases hAB : A = B
    · subst hAB
      have := h.cap A
      rw [hfree] at this
      simp at this ⊢; omega
    · simpa [hAB] using h.cap B
  · intro B C x hx hx2
    rw [hu] at hx2
    exact h.excl B C x (hmemf B x hx) hx2
  · intro B
    rw [hf]
    by_cases hAB : A = B
    · subst hAB; simp only [if_true]; exact (List.nodup_cons.mp hnd).2
    · simpa [hAB] using h.nodup B
  · intro B x hx
    rw [hu] at hx
    rcases hx with hx | hx
    · exact h.addr B x (Or.inl (hmemf B x hx))
    · exact h.addr B x (Or.inr hx)
  · intro B x hx
    rw [hu] at hx
    refine lt_of_lt_of_le ?_ hp
    rcases hx with hx | hx
    · exact h.fresh B x (Or.inl (hmemf B x hx))
    · exact h.fresh B x (Or.inr hx)

theorem Inv.dial {max : Nat} {n m : Pool} {A : String} {cn : Conn}
    (h : Inv max n) (hfree : n.free A = []) (hlt : (n.inUse A).length < max)
    (hptr : cn.ptr = n.nextPtr) (hAddr : cn.Addr = A)
    (hf : ∀ B, m.free B = n.free B)
    (hu : ∀ B, m.inUse B = if A = B then
        (if cn ∈ n.inUse A then n.inUse A else n.inUse A ++ [cn]) else n.inUse B)
    (hc : m.cfg = n.cfg) (hp : n.nextPtr < m.nextPtr) : Inv max m := by
  have hmemu : ∀ B x, x ∈ m.inUse B → x ∈ n.inUse B ∨ (x = cn ∧ A = B) := by
    intro B x hx
    rw [hu] at hx
    by_cases hAB : A = B
    · subst hAB
      by_cases hin : cn ∈ n.inUse A
      · simp [hin] at hx; exact Or.inl hx
      · simp [hin] at hx
        rcases hx with hx | hx
        · exact Or.inl hx
        · exact Or.inr ⟨hx, rfl⟩
    · simp [hAB] at hx; exact Or.inl hx
  refine ⟨by rw [hc]; exact h.cfg, ?_, ?_, ?_, ?_, ?_⟩
  · intro B
    rw [hf, hu]
    by_cases hAB : A = B
    · subst hAB
      rw [hfree]
      by_cases hin : cn ∈ n.inUse A <;> simp [hin] <;> omega
    · simpa [hAB] using h.cap B
  · intro B C x hx hx2
    rw [hf] at hx
    rcases hmemu C x hx2 with hx3 | ⟨rfl, rfl⟩
    · exact h.excl B C x hx hx3
    · have := h.fresh B x (Or.inl hx)
      omega
  · intro B; rw [hf]; exact h.nodup B
  · intro B x hx
    rw [hf] at hx
    rcases hx with hx | hx
    · exact h.addr B x (Or.inl hx)
    · rcases hmemu B x hx with hx3 | ⟨rfl, rfl⟩
      · exact h.addr B x (Or.inr hx3)
      · exact hAddr
  · intro B x hx
    rw [hf] at hx
    rcases hx with hx | hx
    · exact lt_trans (h.fresh B x (Or.inl hx)) hp
    · rcases hmemu B x hx with hx3 | ⟨rfl, rfl⟩
      · exact lt_trans (h.fresh B x (Or.inr hx3)) hp
      · omega

theorem Inv.release {max : Nat} {n m : Pool} {c : Conn}
    (h : Inv max n) (hin : c ∈ n.inUse c.Addr)
    (hf : ∀ B, m.free B = if c.Addr = B then n.free B ++ [c] else n.free B)
    (hu : ∀ B, m.inUse B = if c.Addr = B then
        (n.inUse B).filter (fun x => decide (x ≠ c)) else n.inUse B)
    (hc : m.cfg = n.cfg) (hp : n.nextPtr ≤ m.nextPtr) : Inv max m := by
  have hmemf : ∀ B x, x ∈ m.free B → x ∈ n.free B ∨ (x = c ∧ c.Addr = B) := by
    intro B x hx
    rw [hf] at hx
    by_cases hAB : c.Addr = B
    · simp [hAB] at hx
      rcases hx with hx | hx
      · exact Or.inl hx
      · exact Or.inr ⟨hx, hAB⟩
    · simp [hAB] at hx; exact Or.inl hx
  have hmemu : ∀ B x, x ∈ m.inUse B → x ∈ n.inUse B ∧ (c.Addr = B → x ≠ c) := by
    intro B x hx
    rw [hu] at hx
    by_cases hAB : c.Addr = B
    · simp [hAB] at hx
      exact ⟨hx.1, fun _ => hx.2⟩
    · simp [hAB] at hx; exact ⟨hx, fun h2 => absurd h2 hAB⟩
  have hcfree : ∀ B, c ∉ n.free B := fun B hB => h.excl B c.Addr c hB hin
  refine ⟨by rw [hc]; exact h.cfg, ?_, ?_, ?_, ?_, ?_⟩
  · intro B
    rw [hf, hu]
    by_cases hAB : c.Addr = B
    · subst hAB
      have h1 := h.cap c.Addr
      have h2 : ((n.inUse c.Addr).filter (fun x => decide (x ≠ c))).length
          < (n.inUse c.Addr).length := by
        apply List.length_filter_lt_length_iff_exists.mpr
        exact ⟨c, hin, by simp⟩
      simp at h2 ⊢
      omega
    · simpa [hAB] using h.cap B
  · intro B C x hx hx2
    obtain ⟨hx3, hx4⟩ := hmemu C x hx2
    rcases hmemf B x hx with hx5 | ⟨rfl, hB⟩
    · exact h.excl B C x hx5 hx3
    · have : x.Addr = C := h.addr C x (Or.inr hx3)
      exact hx4 this rfl
  · intro B
    rw [hf]
    by_cases hAB : c.Addr = B
    · simp only [hAB, if_true]
      refine List.Nodup.append (h.nodup B) (List.nodup_singleton c) ?_
      intro x hx hx2
      simp at hx2
      subst hx2
      exact hcfree B hx
    · simpa [hAB] using h.nodup B
  · intro B x hx
    rcases hx with hx | hx
    · rcases hmemf B x hx with hx5 | ⟨rfl, hB⟩
      · exact h.addr B x (Or.inl hx5)
      · exact hB
    · exact h.addr B x (Or.inr (hmemu B x hx).1)
  · intro B x hx
    refine lt_of_lt_of_le ?_ hp
    rcases hx with hx | hx
    · rcases hmemf B x hx with hx5 | ⟨rfl, hB⟩
      · exact h.fresh B x (Or.inl hx5)
      · exact h.fresh x.Addr x (Or.inr hin)
    · exact h.fresh B x (Or.inr (hmemu B x hx).1)


theorem Pool.markUsed_some {n m : Pool} {A : String} {cn : Conn} (h : n.markUsed A cn = some m) :
    m.freeConns = n.freeConns ∧ m.freeConnStream = n.freeConnStream ∧ m.lock = n.lock ∧
    m.cfg = n.cfg ∧ m.nextPtr = n.nextPtr ∧ m.self = n.self ∧ m.addrs = n.addrs ∧
    (∀ B, m.inUse B = if A = B then
      (if cn ∈ n.inUse A then n.inUse A else n.inUse A ++ [cn]) else n.inUse B) := by
  unfold Pool.markUsed at h
  split at h
  · exact absurd h (by simp)
  · rename_i s hs
    injection h with h
    subst h
    refine ⟨rfl, rfl, rfl, rfl, rfl, rfl, rfl, ?_⟩
    intro B
    by_cases hAB : A = B
    · subst hAB; simp [Pool.inUse, GoMap.get?_set, hs]
    · simp [Pool.inUse, GoMap.get?_set, hAB]

theorem Pool.selectWait_inv {max : Nat} {env : Env} {again : Pool → Result} {n : Pool}
    {ctx : Option GoError} {addr : String}
    (hagain : ∀ m, Inv max m → Inv max (again m).pool) (h : Inv max n) :
    Inv max (Pool.selectWait env again n ctx addr).pool := by
  unfold Pool.selectWait
  simp only
  split
  · exact h
  · split
    · split
      · exact hagain _ (h.congr (fun _ => rfl) (fun _ => rfl) rfl (le_refl _))
      · exact h
    · exact h

theorem Pool.GetBody_inv {max : Nat} {env : Env} {again : Pool → Result} {n : Pool}
    {ctx : Option GoError} {addr : String}
    (hagain : ∀ m, Inv max m → Inv max (again m).pool) (h : Inv max n) :
    Inv max (Pool.GetBody env again n ctx addr).pool := by
  unfold Pool.GetBody
  split
  · exact h
  · simp only
    split
    · rename_i cn cnns heq
      have hfree : n.free addr = cn :: cnns := by
        simp only [Pool.free]; rw [heq]; rfl
      split
      · refine h.drop hfree (fun B => ?_) (fun B => rfl) rfl (le_refl _)
        by_cases hAB : addr = B
        · subst hAB; simp [Pool.free, GoMap.get?_set]
        · simp [Pool.free, GoMap.get?_set, hAB]
      · rename_i n3 hm
        obtain ⟨h1, h2, h3, h4, h5, h6, h7, h8⟩ := Pool.markUsed_some hm
        refine h.pop hfree (fun B => ?_) (fun B => ?_) h4 (le_of_eq h5.symm)
        · by_cases hAB : addr = B
          · subst hAB; simp [Pool.free, GoMap.get?_set, h1]
          · simp [Pool.free, GoMap.get?_set, hAB, h1]
        · have := h8 B
          simpa [Pool.inUse] using this
    · rename_i hne
      have hfree : n.free addr = [] := by
        simp only [Pool.free]
        cases hg : n.freeConns.get? addr with
        | none => rfl
        | some l =>
          cases l with
          | nil => rfl
          | cons a t => exact absurd hg (by simpa using hne a t)
      split
      · rename_i hlt
        split
        · exact h.congr (fun _ => rfl) (fun _ => rfl) rfl (le_refl _)
        · rename_i cn hcn
          have hcn2 : cn.ptr = n.nextPtr ∧ cn.Addr = addr := by
            unfold connect at hcn
            split at hcn
            · exact absurd hcn (by simp)
            · injection hcn with hcn; subst hcn; exact ⟨rfl, rfl⟩
          split
          · exact h.congr (fun _ => rfl) (fun _ => rfl) rfl (Nat.le_succ _)
          · rename_i n3 hm
            obtain ⟨h1, h2, h3, h4, h5, h6, h7, h8⟩ := Pool.markUsed_some hm
            refine h.dial hfree ?_ hcn2.1 hcn2.2 (fun B => ?_) (fun B => ?_) h4 ?_
            · rw [← h.cfg]; simpa [Pool.inUse] using hlt
            · simp [Pool.free, h1]
            · have := h8 B
              simpa [Pool.inUse] using this
            · simp [h5]
      · exact Pool.selectWait_inv hagain (h.congr (fun _ => rfl) (fun _ => rfl) rfl (le_refl _))

theorem Pool.GetAux_inv {max : Nat} (env : Env) (ctx : Option GoError) (addr : String)
    (fuel : Nat) : ∀ n, Inv max n → Inv max (Pool.GetAux env ctx addr fuel n).pool := by
  induction fuel with
  | zero => intro n h; exact Pool.GetBody_inv (fun m hm => hm) h
  | succ k ih => intro n h; exact Pool.GetBody_inv ih h

theorem Pool.Get_inv {max : Nat} (env : Env) (ctx : Option GoError) (addr : String)
    (n : Pool) (h : Inv max n) : Inv max (Pool.Get env n ctx addr).pool :=
  Pool.GetAux_inv env ctx addr _ n h

theorem Pool.resume_inv {max : Nat} (env : Env) (ctx : Option GoError) (addr : String)
    (n : Pool) (h : Inv max n) : Inv max (Pool.resume env n ctx addr).pool :=
  Pool.selectWait_inv (fun m hm => Pool.Get_inv env ctx addr m hm) h

theorem Pool.Release_inv {max : Nat} (n : Pool) (c : Conn) (h : Inv max n)
    (hin : c ∈ n.inUse c.Addr) : Inv max (Pool.Release n c).pool := by
  have hsome : ∃ s, n.usedConns.get? c.Addr = some s := by
    cases hg : n.usedConns.get? c.Addr with
    | none => simp [Pool.inUse, hg] at hin
    | some s => exact ⟨s, rfl⟩
  obtain ⟨s, hs⟩ := hsome
  have hf : ∀ (m : Pool), m.freeConns = n.freeConns.set c.Addr (n.free c.Addr ++ [c]) →
      ∀ B, m.free B = if c.Addr = B then n.free B ++ [c] else n.free B := by
    intro m hm B
    by_cases hAB : c.Addr = B
    · subst hAB; simp [Pool.free, hm, GoMap.get?_set]
    · simp [Pool.free, hm, GoMap.get?_set, hAB]
  have hu : ∀ (m : Pool), m.usedConns = n.usedConns.set c.Addr (s.filter (fun x => decide (x ≠ c))) →
      ∀ B, m.inUse B = if c.Addr = B then
        (n.inUse B).filter (fun x => decide (x ≠ c)) else n.inUse B := by
    intro m hm B
    by_cases hAB : c.Addr = B
    · subst hAB; simp [Pool.inUse, hm, GoMap.get?_set, hs]
    · simp [Pool.inUse, hm, GoMap.get?_set, hAB]
  unfold Pool.Release
  split
  · exact h
  · simp only [hs]
    split
    · split
      · exact h.release hin (hf _ rfl) (hu _ rfl) rfl (le_refl _)
      · exact h.release hin (hf _ rfl) (hu _ rfl) rfl (le_refl _)
    · exact h.release hin (hf _ rfl) (hu _ rfl) rfl (le_refl _)


theorem NewPool.fill_spec (cfg : poolconfig) (addrs : List String) :
    ∀ pool : Pool, (∀ A, pool.free A = []) → (∀ A, pool.inUse A = []) →
      (∀ A, (NewPool.fill cfg addrs pool).free A = []) ∧
      (∀ A, (NewPool.fill cfg addrs pool).inUse A = []) ∧
      (NewPool.fill cfg addrs pool).cfg = pool.cfg ∧
      (NewPool.fill cfg addrs pool).nextPtr = pool.nextPtr ∧
      (NewPool.fill cfg addrs pool).lock = pool.lock ∧
      (NewPool.fill cfg addrs pool).self = pool.self ∧
      (NewPool.fill cfg addrs pool).addrs = pool.addrs := by
  induction addrs with
  | nil => intro pool hf hu; exact ⟨hf, hu, rfl, rfl, rfl, rfl, rfl⟩
  | cons a rest ih =>
    intro pool hf hu
    simp only [NewPool.fill]
    refine ih _ (fun A => ?_) (fun A => ?_)
    · have := hf A
      by_cases hAB : a = A
      · simp [Pool.free, GoMap.get?_set, hAB]
      · simpa [Pool.free, GoMap.get?_set, hAB] using this
    · have := hu A
      by_cases hAB : a = A
      · simp [Pool.inUse, GoMap.get?_set, hAB]
      · simpa [Pool.inUse, GoMap.get?_set, hAB] using this

theorem NewPool_inv (self : Nat) (addrs : List String) (opts : List poolOpt) :
    Inv (NewPool self addrs opts).1.cfg.MaxConnPerNode (NewPool self addrs opts).1 := by
  obtain ⟨hf, hu, -, -, -, -, -⟩ := NewPool.fill_spec
    (opts.foldl (fun c fn => fn c) defaultPoolConfig) addrs
    { self := self, addrs := addrs, freeConns := [], freeConnStream := [], usedConns := [],
      lock := false, cfg := opts.foldl (fun c fn => fn c) defaultPoolConfig, nextPtr := 0 }
    (fun _ => rfl) (fun _ => rfl)
  simp only [NewPool]
  refine ⟨rfl, ?_, ?_, ?_, ?_, ?_⟩
  · intro A; rw [hf, hu]; simp
  · intro A B c hc; rw [hf] at hc; simp at hc
  · intro A; rw [hf]; exact List.nodup_nil
  · intro A c hc; rw [hf, hu] at hc; simp at hc
  · intro A c hc; rw [hf, hu] at hc; simp at hc

theorem Reachable.inv {self : Nat} {addrs : List String} {opts : List poolOpt} {n : Pool}
    (h : Reachable self addrs opts n) :
    Inv (NewPool self addrs opts).1.cfg.MaxConnPerNode n := by
  induction h with
  | init => exact NewPool_inv self addrs opts
  | get env ctx addr _ ih => exact Pool.Get_inv env ctx addr _ ih
  | resume env ctx addr _ ih => exact Pool.resume_inv env ctx addr _ ih
  | release c _ hin ih => exact Pool.Release_inv _ c ih hin

theorem Reachable.exclusive {self : Nat} {addrs : List String} {opts : List poolOpt} {n : Pool}
    (h : Reachable self addrs opts n) : n.Exclusive :=
  ⟨h.inv.excl, h.inv.nodup, h.inv.addr⟩

theorem Reachable.allocated {self : Nat} {addrs : List String} {opts : List poolOpt} {n : Pool}
    (h : Reachable self addrs opts n) : n.Allocated :=
  h.inv.fresh

theorem Scenario.pool1Busy_reachable :
    Reachable 1 ["a:1"] [WithOptMaxConnPerNode 1] Scenario.pool1Busy :=
  Reachable.get _ _ _ Reachable.init

theorem Scenario.pool1Cycled_reachable :
    Reachable 1 ["a:1"] [WithOptMaxConnPerNode 1] Scenario.pool1Cycled :=
  Reachable.get _ _ _ (Reachable.release Scenario.connA0 Scenario.pool1Busy_reachable
    (by decide))

theorem Scenario.pool2Busy_reachable :
    Reachable 1 ["a:1", "b:1"] [WithOptMaxConnPerNode 2] Scenario.pool2Busy :=
  Reachable.get _ _ _ (Reachable.get _ _ _ Reachable.init)

theorem Scenario.pool2OneIdle_reachable :
    Reachable 1 ["a:1", "b:1"] [WithOptMaxConnPerNode 2] Scenario.pool2OneIdle :=
  Reachable.release Scenario.connA0 Scenario.pool2Busy_reachable (by decide)

theorem Scenario.pool2Idle_reachable :
    Reachable 1 ["a:1", "b:1"] [WithOptMaxConnPerNode 2] Scenario.pool2Idle :=
  Reachable.release Scenario.connA1 Scenario.pool2OneIdle_reachable (by decide)

/-! ## The branches of `Get` and `Release` -/

theorem Pool.free_nil_cases {n : Pool} {A : String} (h : n.free A = []) :
    n.freeConns.get? A = none ∨ n.freeConns.get? A = some [] := by
  unfold Pool.free at h
  cases hg : n.freeConns.get? A with
  | none => exact Or.inl rfl
  | some l =>
    rw [hg] at h
    exact Or.inr (congrArg some h)

/-- The branch of `Get` that takes an idle connection. -/
theorem Pool.GetBody_pop (env : Env) (again : Pool → Result) (n : Pool) (ctx : Option GoError)
    (A : String) (cn : Conn) (cnns s : List Conn) (hlock : n.lock = false)
    (hfree : n.freeConns.get? A = some (cn :: cnns)) (hused : n.usedConns.get? A = some s) :
    Pool.GetBody env again n ctx A =
      { exit := .returned (some cn) none,
        pool := { n with
          freeConns := n.freeConns.set A cnns
          usedConns := n.usedConns.set A (if cn ∈ s then s else s ++ [cn])
          lock := false },
        trace := [.lock, .unlock] } := by
  simp [Pool.GetBody, hlock, hfree, Pool.markUsed, hused]

/-- The branch of `Get` that dials, when the dial fails. -/
theorem Pool.GetBody_dial_error (env : Env) (again : Pool → Result) (n : Pool)
    (ctx : Option GoError) (A : String) (e : GoError) (hlock : n.lock = false)
    (hfree : n.free A = []) (hlt : (n.inUse A).length < n.cfg.MaxConnPerNode)
    (hdial : env.dial A = .error e) :
    Pool.GetBody env again n ctx A =
      { exit := .returned none (some (.wrapf "dial failed: " e)),
        pool := { n with lock := false },
        trace := [.lock, .dial A, .unlock] } := by
  have hlt2 : (({ n with lock := true } : Pool).inUse A).length < n.cfg.MaxConnPerNode := hlt
  rcases Pool.free_nil_cases hfree with hg | hg <;>
    simp [Pool.GetBody, hlock, hg, hlt2, connect, hdial]

/-- The branch of `Get` that dials, when the dial succeeds. -/
theorem Pool.GetBody_dial_ok (env : Env) (again : Pool → Result) (n : Pool)
    (ctx : Option GoError) (A : String) (tcp : Nat) (s : List Conn) (hlock : n.lock = false)
    (hfree : n.free A = []) (hlt : (n.inUse A).length < n.cfg.MaxConnPerNode)
    (hused : n.usedConns.get? A = some s) (hdial : env.dial A = .ok tcp) :
    Pool.GetBody env again n ctx A =
      { exit := .returned (some { ptr := n.nextPtr, Addr := A, cnn := tcp, pool := n.self }) none,
        pool := { n with
          usedConns := n.usedConns.set A
            (if ({ ptr := n.nextPtr, Addr := A, cnn := tcp, pool := n.self } : Conn) ∈ s
              then s else s ++ [{ ptr := n.nextPtr, Addr := A, cnn := tcp, pool := n.self }])
          nextPtr := n.nextPtr + 1
          lock := false },
        trace := [.lock, .dial A, .unlock] } := by
  have hlt2 : (({ n with lock := true } : Pool).inUse A).length < n.cfg.MaxConnPerNode := hlt
  rcases Pool.free_nil_cases hfree with hg | hg <;>
    simp [Pool.GetBody, hlock, hg, hlt2, connect, hdial, Pool.markUsed, hused]

/-- The branch of `Get` that waits. -/
theorem Pool.GetBody_wait (env : Env) (again : Pool → Result) (n : Pool)
    (ctx : Option GoError) (A : String) (hlock : n.lock = false)
    (hfree : n.free A = []) (hfull : n.cfg.MaxConnPerNode ≤ (n.inUse A).length) :
    Pool.GetBody env again n ctx A =
      { exit := (Pool.selectWait env again { n with lock := false } ctx A).exit,
        pool := (Pool.selectWait env again { n with lock := false } ctx A).pool,
        trace := .lock :: .unlock ::
          (Pool.selectWait env again { n with lock := false } ctx A).trace } := by
  have hlt2 : ¬ (({ n with lock := true } : Pool).inUse A).length < n.cfg.MaxConnPerNode :=
    Nat.not_lt.mpr hfull
  rcases Pool.free_nil_cases hfree with hg | hg <;>
    simp [Pool.GetBody, hlock, hg, hlt2]

/-- Restoring the lock of an unlocked pool gives the pool back. -/
theorem Pool.unlock_eq (n : Pool) (hlock : n.lock = false) : { n with lock := false } = n := by
  cases n
  simp at hlock
  simp [hlock]

/-- The body of `Get` does not depend on the recursive call unless it waits. -/
theorem Pool.GetAux_eq_body (env : Env) (ctx : Option GoError) (A : String) (fuel : Nat)
    (n : Pool) (r : Result) (h : ∀ again, Pool.GetBody env again n ctx A = r) :
    Pool.GetAux env ctx A fuel n = r := by
  cases fuel with
  | zero => exact h _
  | succ k => exact h _

/-- The successful `Release`. -/
theorem Pool.Release_ok (n : Pool) (c : Conn) (s : List Conn) (ch : Chan)
    (hlock : n.lock = false) (hused : n.usedConns.get? c.Addr = some s)
    (hch : n.freeConnStream.get? c.Addr = some ch) (hroom : ch.len < ch.cap) :
    Pool.Release n c =
      { exit := .returned none none,
        pool := { n with
          freeConns := n.freeConns.set c.Addr (n.free c.Addr ++ [c])
          usedConns := n.usedConns.set c.Addr (s.filter (fun x => decide (x ≠ c)))
          freeConnStream := n.freeConnStream.set c.Addr { ch with len := ch.len + 1 }
          lock := false },
        trace := [.lock, .send c.Addr, .unlock] } := by
  simp [Pool.Release, hlock, hused, hch, hroom, Pool.free]


theorem Pool.Get_pop (env : Env) (n : Pool) (ctx : Option GoError)
    (A : String) (cn : Conn) (cnns s : List Conn) (hlock : n.lock = false)
    (hfree : n.freeConns.get? A = some (cn :: cnns)) (hused : n.usedConns.get? A = some s) :
    Pool.Get env n ctx A =
      { exit := .returned (some cn) none,
        pool := { n with
          freeConns := n.freeConns.set A cnns
          usedConns := n.usedConns.set A (if cn ∈ s then s else s ++ [cn])
          lock := false },
        trace := [.lock, .unlock] } :=
  Pool.GetAux_eq_body env ctx A _ n _
    (fun again => Pool.GetBody_pop env again n ctx A cn cnns s hlock hfree hused)

theorem Pool.free_cons {n : Pool} {A : String} {cn : Conn} {cnns : List Conn}
    (h : n.free A = cn :: cnns) : n.freeConns.get? A = some (cn :: cnns) := by
  unfold Pool.free at h
  cases hg : n.freeConns.get? A with
  | none => rw [hg] at h; exact absurd h (by simp)
  | some l => rw [hg] at h; exact congrArg some h

theorem Pool.used_of_mem {n : Pool} {A : String} {c : Conn} (h : c ∈ n.inUse A) :
    n.usedConns.get? A = some (n.inUse A) := by
  unfold Pool.inUse at h ⊢
  cases hg : n.usedConns.get? A with
  | none => rw [hg] at h; exact absurd h (by simp)
  | some l => rfl

theorem Pool.used_of_isSome {n : Pool} {A : String} (h : (n.usedConns.get? A).isSome = true) :
    n.usedConns.get? A = some (n.inUse A) := by
  unfold Pool.inUse
  cases hg : n.usedConns.get? A with
  | none => rw [hg] at h; exact absurd h (by simp)
  | some l => rfl

theorem Pool.chan_of_room {n : Pool} {A : String} (h : n.buffered A < n.chanCap A) :
    ∃ ch, n.freeConnStream.get? A = some ch ∧ ch.len = n.buffered A ∧ ch.cap = n.chanCap A ∧
      ch.len < ch.cap := by
  unfold Pool.buffered Pool.chanCap at *
  cases hg : n.freeConnStream.get? A with
  | none => rw [hg] at h; exact absurd h (by simp)
  | some ch => rw [hg] at h; exact ⟨ch, rfl, rfl, rfl, h⟩

/-- With a live context and nothing buffered the `select` has no ready case. -/
theorem Pool.selectWait_live_empty (env : Env) (again : Pool → Result) (n : Pool) (A : String)
    (hbuf : n.buffered A = 0) :
    Pool.selectWait env again n none A = { exit := .blockedSelect, pool := n, trace := [] } := by
  unfold Pool.buffered at hbuf
  cases hg : n.freeConnStream.get? A with
  | none => simp [Pool.selectWait, hg]
  | some ch =>
    rw [hg] at hbuf
    simp at hbuf
    simp [Pool.selectWait, hg, hbuf]

/-- With a live context and a buffered notification the `select` receives it
and `Get` calls itself. -/
theorem Pool.selectWait_live_recv (env : Env) (again : Pool → Result) (n : Pool) (A : String)
    (ch : Chan) (hch : n.freeConnStream.get? A = some ch) (hpos : 0 < ch.len) :
    Pool.selectWait env again n none A =
      { exit := (again { n with
          freeConnStream := n.freeConnStream.set A { ch with len := ch.len - 1 } }).exit,
        pool := (again { n with
          freeConnStream := n.freeConnStream.set A { ch with len := ch.len - 1 } }).pool,
        trace := .recv A :: (again { n with
          freeConnStream := n.freeConnStream.set A { ch with len := ch.len - 1 } }).trace } := by
  simp [Pool.selectWait, hch, hpos]

/-- With a done context the `select` either returns the error of the context
or receives a buffered notification and `Get` calls itself. -/
theorem Pool.selectWait_done (env : Env) (again : Pool → Result) (n : Pool) (A : String)
    (e : GoError) :
    Pool.selectWait env again n (some e) A
        = { exit := .returned none (some e), pool := n, trace := [.ctxDone] } ∨
    ∃ ch, n.freeConnStream.get? A = some ch ∧ 0 < ch.len ∧
      Pool.selectWait env again n (some e) A =
        { exit := (again { n with
            freeConnStream := n.freeConnStream.set A { ch with len := ch.len - 1 } }).exit,
          pool := (again { n with
            freeConnStream := n.freeConnStream.set A { ch with len := ch.len - 1 } }).pool,
          trace := .recv A :: (again { n with
            freeConnStream := n.freeConnStream.set A { ch with len := ch.len - 1 } }).trace } := by
  cases hg : n.freeConnStream.get? A with
  | none => left; simp [Pool.selectWait, hg]
  | some ch =>
    by_cases hpos : 0 < ch.len
    · by_cases hpick : env.pickCtx (n.buffered A) = true
      · left; simp [Pool.selectWait, hg, hpos, hpick]
      · right
        exact ⟨ch, rfl, hpos, by simp [Pool.selectWait, hg, hpos, hpick]⟩
    · left; simp [Pool.selectWait, hg, hpos]

/-- At full capacity with a done context, `Get` returns the error of the
context for every fuel that covers the buffered notifications. -/
theorem Pool.GetAux_cancelled (env : Env) (A : String) (e : GoError) (fuel : Nat) :
    ∀ n : Pool, n.buffered A ≤ fuel → n.lock = false → n.free A = [] →
      n.cfg.MaxConnPerNode ≤ (n.inUse A).length →
      (Pool.GetAux env (some e) A fuel n).exit = .returned none (some e) ∧
      (∀ a, Event.dial a ∉ (Pool.GetAux env (some e) A fuel n).trace) ∧
      (Pool.GetAux env (some e) A fuel n).pool.freeConns = n.freeConns ∧
      (Pool.GetAux env (some e) A fuel n).pool.usedConns = n.usedConns ∧
      (Pool.GetAux env (some e) A fuel n).pool.lock = false ∧
      (Pool.GetAux env (some e) A fuel n).pool.cfg = n.cfg ∧
      (Pool.GetAux env (some e) A fuel n).pool.buffered A ≤ n.buffered A := by
  induction fuel with
  | zero =>
    intro n hbuf hlock hfree hfull
    simp only [Pool.GetAux]
    rw [Pool.GetBody_wait env _ n (some e) A hlock hfree hfull]
    rcases Pool.selectWait_done env (fun m => { exit := .fuelOut, pool := m, trace := [] })
      { n with lock := false } A e with h | ⟨ch, hch, hpos, -⟩
    · rw [h]
      simp
      rfl
    · have : n.buffered A = ch.len := by
        simp at hch
        simp [Pool.buffered, hch]
      omega
  | succ k ih =>
    intro n hbuf hlock hfree hfull
    simp only [Pool.GetAux]
    rw [Pool.GetBody_wait env _ n (some e) A hlock hfree hfull]
    rcases Pool.selectWait_done env (Pool.GetAux env (some e) A k)
      { n with lock := false } A e with h | ⟨ch, hch, hpos, h⟩
    · rw [h]
      simp
      rfl
    · rw [h]
      have hlen : n.buffered A = ch.len := by
        simp at hch
        simp [Pool.buffered, hch]
      have hb : ({ n with lock := false, freeConnStream :=
          n.freeConnStream.set A { ch with len := ch.len - 1 } } : Pool).buffered A
          = ch.len - 1 := by
        simp [Pool.buffered, GoMap.get?_set]
      obtain ⟨h1, h2, h3, h4, h5, h6, h7⟩ := ih
        ({ n with lock := false, freeConnStream :=
          n.freeConnStream.set A { ch with len := ch.len - 1 } } : Pool)
        (by rw [hb]; omega) rfl hfree hfull
      refine ⟨h1, ?_, h3, h4, h5, h6, ?_⟩
      · intro a ha
        simp at ha
        exact h2 a ha
      · simp only at h7 ⊢
        rw [hb] at h7
        omega

/-! ## Totality of `Get` and the entries of supplied addresses -/

/-- One pass through the body of `Get` either ends the call in a way that does
not depend on the recursive call, or receives one buffered notification and
hands over to the recursive call. -/
theorem Pool.GetBody_cases (env : Env) (n : Pool) (ctx : Option GoError) (A : String) :
    (∃ r : Result, r.exit ≠ .fuelOut ∧ ∀ again, Pool.GetBody env again n ctx A = r) ∨
    (∃ m : Pool, m.buffered A + 1 = n.buffered A ∧ m.freeConns = n.freeConns ∧
      m.usedConns = n.usedConns ∧
      ∀ again, Pool.GetBody env again n ctx A =
        { exit := (again m).exit, pool := (again m).pool,
          trace := .lock :: .unlock :: .recv A :: (again m).trace }) := by
  by_cases hlock : n.lock = true
  · left
    exact ⟨{ exit := .blockedLock, pool := n, trace := [] }, by simp,
      fun again => by simp [Pool.GetBody, hlock]⟩
  · have hlock2 : n.lock = false := by simpa using hlock
    cases hl : n.free A with
    | cons cn cnns =>
      left
      cases hu : n.usedConns.get? A with
      | none =>
        exact ⟨{ exit := .panicked,
                 pool := { n with lock := true, freeConns := n.freeConns.set A cnns },
                 trace := [.lock] }, by simp, fun again => by
          simp [Pool.GetBody, hlock2, Pool.free_cons hl, Pool.markUsed, hu]⟩
      | some s =>
        exact ⟨_, by simp, fun again =>
          Pool.GetBody_pop env again n ctx A cn cnns s hlock2 (Pool.free_cons hl) hu⟩
    | nil =>
      by_cases hlt : (n.inUse A).length < n.cfg.MaxConnPerNode
      · left
        cases hd : env.dial A with
        | error e =>
          exact ⟨_, by simp, fun again =>
            Pool.GetBody_dial_error env again n ctx A e hlock2 hl hlt hd⟩
        | ok tcp =>
          cases hu : n.usedConns.get? A with
          | none =>
            have hlt2 : (({ n with lock := true } : Pool).inUse A).length
                < n.cfg.MaxConnPerNode := hlt
            refine ⟨{ exit := .panicked,
                      pool := { n with lock := true, nextPtr := n.nextPtr + 1 },
                      trace := [.lock, .dial A] }, by simp, fun again => ?_⟩
            rcases Pool.free_nil_cases hl with hg | hg <;>
              simp [Pool.GetBody, hlock2, hg, hlt2, connect, hd, Pool.markUsed, hu]
          | some s =>
            exact ⟨_, by simp, fun again =>
              Pool.GetBody_dial_ok env again n ctx A tcp s hlock2 hl hlt hu hd⟩
      · have hfull : n.cfg.MaxConnPerNode ≤ (n.inUse A).length := Nat.not_lt.mp hlt
        cases hg : n.freeConnStream.get? A with
        | none =>
          left
          refine ⟨{ exit := if ctx.isSome then .returned none ctx else .blockedSelect,
                    pool := { n with lock := false },
                    trace := .lock :: .unlock :: (if ctx.isSome then [.ctxDone] else []) },
            (by cases ctx <;> simp), fun again => ?_⟩
          rw [Pool.GetBody_wait env again n ctx A hlock2 hl hfull]
          cases ctx <;> simp [Pool.selectWait, hg]
        | some ch =>
          have hb : ({ n with lock := false } : Pool).buffered A = n.buffered A := rfl
          have hrecv : (∃ m : Pool, m.buffered A + 1 = n.buffered A ∧
              m.freeConns = n.freeConns ∧ m.usedConns = n.usedConns ∧
              ∀ again, Pool.selectWait env again { n with lock := false } ctx A =
                { exit := (again m).exit, pool := (again m).pool,
                  trace := .recv A :: (again m).trace }) →
              (∃ m : Pool, m.buffered A + 1 = n.buffered A ∧ m.freeConns = n.freeConns ∧
                m.usedConns = n.usedConns ∧
                ∀ again, Pool.GetBody env again n ctx A =
                  { exit := (again m).exit, pool := (again m).pool,
                    trace := .lock :: .unlock :: .recv A :: (again m).trace }) := by
            rintro ⟨m, h1, h2, h3, h4⟩
            refine ⟨m, h1, h2, h3, fun again => ?_⟩
            rw [Pool.GetBody_wait env again n ctx A hlock2 hl hfull, h4]
          have hstop : ∀ r : Result, r.exit ≠ .fuelOut →
              (∀ again, Pool.selectWait env again { n with lock := false } ctx A = r) →
              ∃ r2 : Result, r2.exit ≠ .fuelOut ∧
                ∀ again, Pool.GetBody env again n ctx A = r2 := by
            intro r hr h
            refine ⟨{ exit := r.exit, pool := r.pool, trace := .lock :: .unlock :: r.trace },
              hr, fun again => ?_⟩
            rw [Pool.GetBody_wait env again n ctx A hlock2 hl hfull, h]
          have hm : (Pool.afterRecv n A ch).buffered A = ch.len - 1 := by
            simp [Pool.afterRecv, Pool.buffered, GoMap.get?_set]
          have hn : n.buffered A = ch.len := by simp [Pool.buffered, hg]
          by_cases hpos : 0 < ch.len
          · cases ctx with
            | none =>
              right
              refine hrecv ⟨Pool.afterRecv n A ch, ?_, rfl, rfl, fun again => ?_⟩
              · rw [hm, hn]; omega
              · simp [Pool.selectWait, Pool.afterRecv, hg, hpos]
            | some e =>
              by_cases hpick : env.pickCtx (n.buffered A) = true
              · left
                refine hstop { exit := .returned none (some e), pool := { n with lock := false },
                               trace := [.ctxDone] } (by simp) (fun again => ?_)
                simp [Pool.selectWait, hg, hpos, hb, hpick]
              · right
                refine hrecv ⟨Pool.afterRecv n A ch, ?_, rfl, rfl, fun again => ?_⟩
                · rw [hm, hn]; omega
                · simp [Pool.selectWait, Pool.afterRecv, hg, hpos, hb, hpick]
          · left
            cases ctx with
            | none =>
              refine hstop { exit := .blockedSelect, pool := { n with lock := false },
                             trace := [] } (by simp) (fun again => ?_)
              simp [Pool.selectWait, hg, hpos]
            | some e =>
              refine hstop { exit := .returned none (some e), pool := { n with lock := false },
                             trace := [.ctxDone] } (by simp) (fun again => ?_)
              simp [Pool.selectWait, hg, hpos]

/-- The recursion budget of `Get` is never exhausted: with any fuel that
covers the buffered notifications, `GetAux` ends as it does with exactly that
much fuel, and not by `fuelOut`. -/
theorem Pool.GetAux_fuel (env : Env) (ctx : Option GoError) (A : String) (fuel : Nat) :
    ∀ n : Pool, n.buffered A ≤ fuel →
      Pool.GetAux env ctx A fuel n = Pool.Get env n ctx A ∧
      (Pool.Get env n ctx A).exit ≠ .fuelOut := by
  induction fuel with
  | zero =>
    intro n hn
    have h0 : n.buffered A = 0 := Nat.le_zero.mp hn
    unfold Pool.Get
    rw [h0]
    refine ⟨rfl, ?_⟩
    rcases Pool.GetBody_cases env n ctx A with ⟨r, hr, hbody⟩ | ⟨m, hm, -, -, -⟩
    · simp only [Pool.GetAux]
      rw [hbody]; exact hr
    · omega
  | succ k ih =>
    intro n hn
    rcases Pool.GetBody_cases env n ctx A with ⟨r, hr, hbody⟩ | ⟨m, hm, -, -, hbody⟩
    · have h1 : Pool.GetAux env ctx A (k + 1) n = r := by
        simp only [Pool.GetAux]; exact hbody _
      have h2 : Pool.Get env n ctx A = r :=
        Pool.GetAux_eq_body env ctx A _ n r hbody
      rw [h1, h2]
      exact ⟨rfl, hr⟩
    · have hmk : m.buffered A ≤ k := by omega
      obtain ⟨ih1, ih2⟩ := ih m hmk
      have h1 : Pool.GetAux env ctx A (k + 1) n =
          { exit := (Pool.Get env m ctx A).exit, pool := (Pool.Get env m ctx A).pool,
            trace := .lock :: .unlock :: .recv A :: (Pool.Get env m ctx A).trace } := by
        simp only [Pool.GetAux]
        rw [hbody, ih1]
      have h2 : Pool.Get env n ctx A =
          { exit := (Pool.Get env m ctx A).exit, pool := (Pool.Get env m ctx A).pool,
            trace := .lock :: .unlock :: .recv A :: (Pool.Get env m ctx A).trace } := by
        unfold Pool.Get
        rw [← hm]
        simp only [Pool.GetAux]
        rw [hbody]
      rw [h1, h2]
      exact ⟨rfl, ih2⟩

/-- `Get` is total: it never ends by exhausting the budget of the model. -/
theorem Pool.Get_exit_ne_fuelOut (env : Env) (n : Pool) (ctx : Option GoError) (A : String) :
    (Pool.Get env n ctx A).exit ≠ .fuelOut :=
  (Pool.GetAux_fuel env ctx A (n.buffered A) n (le_refl _)).2


theorem GoMap.isSome_set {V : Type} (m : GoMap V) (k k2 : String) (v : V)
    (h : (m.get? k2).isSome = true) : ((GoMap.set m k v).get? k2).isSome = true := by
  rw [GoMap.get?_set]
  by_cases hk : k = k2 <;> simp [hk, h]

theorem Keys.markUsed {max : Nat} {addrs : List String} {n m : Pool} {A : String} {cn : Conn}
    (h : Keys max addrs n) (hm : n.markUsed A cn = some m) : Keys max addrs m := by
  obtain ⟨h1, h2, h3, h4, -, -, -, -⟩ := Pool.markUsed_some hm
  refine ⟨by rw [h4]; exact h.cfg, by rw [h1]; exact h.free, ?_, by rw [h2]; exact h.chan⟩
  intro B hB
  unfold Pool.markUsed at hm
  split at hm
  · exact absurd hm (by simp)
  · injection hm with hm
    subst hm
    exact GoMap.isSome_set _ _ _ _ (h.used B hB)

theorem Keys.recv {max : Nat} {addrs : List String} {n : Pool} {A : String} {ch : Chan}
    {k : Nat} {b : Bool} (h : Keys max addrs n) (hch : n.freeConnStream.get? A = some ch) :
    Keys max addrs { n with
      lock := b, freeConnStream := n.freeConnStream.set A { ch with len := k } } := by
  refine ⟨h.cfg, h.free, h.used, ?_⟩
  intro B hB
  obtain ⟨ch2, h1, h2⟩ := h.chan B hB
  by_cases hAB : A = B
  · subst hAB
    rw [hch] at h1
    injection h1 with h1
    subst h1
    exact ⟨{ ch with len := k }, by simp [GoMap.get?_set], h2⟩
  · exact ⟨ch2, by simp [GoMap.get?_set, hAB, h1], h2⟩

theorem Pool.selectWait_keys {max : Nat} {addrs : List String} {env : Env}
    {again : Pool → Result} {n : Pool} {ctx : Option GoError} {addr : String}
    (hagain : ∀ m, Keys max addrs m → Keys max addrs (again m).pool) (h : Keys max addrs n) :
    Keys max addrs (Pool.selectWait env again n ctx addr).pool := by
  unfold Pool.selectWait
  simp only
  split
  · exact h
  · split
    · rename_i ch hch
      split
      · exact hagain _ (by simpa using h.recv hch)
      · exact h
    · exact h

theorem Pool.GetBody_keys {max : Nat} {addrs : List String} {env : Env}
    {again : Pool → Result} {n : Pool} {ctx : Option GoError} {addr : String}
    (hagain : ∀ m, Keys max addrs m → Keys max addrs (again m).pool) (h : Keys max addrs n) :
    Keys max addrs (Pool.GetBody env again n ctx addr).pool := by
  have hpop : ∀ (b : Bool) (cnns : List Conn), Keys max addrs
      { n with lock := b, freeConns := n.freeConns.set addr cnns } := fun b cnns =>
    ⟨h.cfg, fun B hB => GoMap.isSome_set _ _ _ _ (h.free B hB), h.used, h.chan⟩
  have hlk : ∀ (b : Bool) (k : Nat), Keys max addrs { n with lock := b, nextPtr := k } :=
    fun b k => ⟨h.cfg, h.free, h.used, h.chan⟩
  have hunlock : ∀ m : Pool, Keys max addrs m → Keys max addrs { m with lock := false } :=
    fun m hm => ⟨hm.cfg, hm.free, hm.used, hm.chan⟩
  unfold Pool.GetBody
  split
  · exact h
  · simp only
    split
    · split
      · exact hpop true _
      · rename_i n3 hm
        exact hunlock _ ((hpop true _).markUsed hm)
    · split
      · split
        · exact hlk false _
        · split
          · exact hlk true _
          · rename_i n3 hm
            exact hunlock _ ((hlk true _).markUsed hm)
      · exact Pool.selectWait_keys hagain (hlk false _)

theorem Pool.Get_keys {max : Nat} {addrs : List String} (env : Env) (ctx : Option GoError)
    (addr : String) (n : Pool) (h : Keys max addrs n) :
    Keys max addrs (Pool.Get env n ctx addr).pool := by
  have haux : ∀ fuel (m : Pool), Keys max addrs m →
      Keys max addrs (Pool.GetAux env ctx addr fuel m).pool := by
    intro fuel
    induction fuel with
    | zero => intro m hm; exact Pool.GetBody_keys (fun _ hk => hk) hm
    | succ k ih => intro m hm; exact Pool.GetBody_keys ih hm
  exact haux _ n h

theorem Pool.Release_keys {max : Nat} {addrs : List String} (n : Pool) (c : Conn)
    (h : Keys max addrs n) : Keys max addrs (Pool.Release n c).pool := by
  have hfree : ∀ (l : List Conn) (B : String), B ∈ addrs →
      ((n.freeConns.set c.Addr l).get? B).isSome = true :=
    fun l B hB => GoMap.isSome_set _ _ _ _ (h.free B hB)
  have hused : ∀ (l : List Conn) (B : String), B ∈ addrs →
      ((n.usedConns.set c.Addr l).get? B).isSome = true :=
    fun l B hB => GoMap.isSome_set _ _ _ _ (h.used B hB)
  by_cases hlock : n.lock = true
  · simpa [Pool.Release, hlock] using h
  · cases hu : n.usedConns.get? c.Addr with
    | none =>
      have h4 : ∀ b : Bool, Keys max addrs { n with
          lock := b, freeConns := n.freeConns.set c.Addr (n.free c.Addr ++ [c]) } :=
        fun b => ⟨h.cfg, hfree _, h.used, h.chan⟩
      cases hc : n.freeConnStream.get? c.Addr with
      | none => simpa [Pool.Release, hlock, hu, hc] using h4 true
      | some ch =>
        by_cases hroom : ch.len < ch.cap
        · simpa [Pool.Release, hlock, hu, hc, hroom] using (h4 true).recv (b := false) hc
        · simpa [Pool.Release, hlock, hu, hc, hroom] using h4 true
    | some s =>
      have h4 : ∀ b : Bool, Keys max addrs { n with
          lock := b, freeConns := n.freeConns.set c.Addr (n.free c.Addr ++ [c])
          usedConns := n.usedConns.set c.Addr (s.filter (fun x => decide (x ≠ c))) } :=
        fun b => ⟨h.cfg, hfree _, hused _, h.chan⟩
      cases hc : n.freeConnStream.get? c.Addr with
      | none => simpa [Pool.Release, hlock, hu, hc] using h4 true
      | some ch =>
        by_cases hroom : ch.len < ch.cap
        · simpa [Pool.Release, hlock, hu, hc, hroom] using (h4 true).recv (b := false) hc
        · simpa [Pool.Release, hlock, hu, hc, hroom] using h4 true


theorem NewPool.fill_keys (cfg : poolconfig) (addrs : List String) :
    ∀ (pool : Pool) (A : String),
      (A ∈ addrs ∨ ((pool.freeConns.get? A).isSome = true ∧ (pool.usedConns.get? A).isSome = true ∧
        ∃ ch, pool.freeConnStream.get? A = some ch ∧ ch.cap = cfg.MaxConnPerNode)) →
      ((NewPool.fill cfg addrs pool).freeConns.get? A).isSome = true ∧
      ((NewPool.fill cfg addrs pool).usedConns.get? A).isSome = true ∧
      ∃ ch, (NewPool.fill cfg addrs pool).freeConnStream.get? A = some ch ∧
        ch.cap = cfg.MaxConnPerNode := by
  induction addrs with
  | nil =>
    intro pool A h
    rcases h with h | h
    · exact absurd h (List.not_mem_nil A)
    · exact h
  | cons a rest ih =>
    intro pool A h
    simp only [NewPool.fill]
    apply ih
    by_cases haA : a = A
    · right
      subst haA
      exact ⟨by simp [GoMap.get?_set], by simp [GoMap.get?_set],
        ⟨{ cap := cfg.MaxConnPerNode, len := 0 }, by simp [GoMap.get?_set], rfl⟩⟩
    · rcases h with h | ⟨h1, h2, ch, h3, h4⟩
      · left
        rcases List.mem_cons.mp h with h | h
        · exact absurd h.symm haA
        · exact h
      · right
        exact ⟨by simp [GoMap.get?_set, haA, h1], by simp [GoMap.get?_set, haA, h2],
          ⟨ch, by simp [GoMap.get?_set, haA, h3], h4⟩⟩

theorem NewPool_keys (self : Nat) (addrs : List String) (opts : List poolOpt) :
    Keys (NewPool self addrs opts).1.cfg.MaxConnPerNode addrs (NewPool self addrs opts).1 := by
  have hcfg : (NewPool self addrs opts).1.cfg
      = opts.foldl (fun c fn => fn c) defaultPoolConfig := by
    simp only [NewPool]
    exact (NewPool.fill_spec _ addrs
      { self := self, addrs := addrs, freeConns := [], freeConnStream := [], usedConns := [],
        lock := false, cfg := opts.foldl (fun c fn => fn c) defaultPoolConfig, nextPtr := 0 }
      (fun _ => rfl) (fun _ => rfl)).2.2.1
  have hk := fun A (hA : A ∈ addrs) => NewPool.fill_keys
    (opts.foldl (fun c fn => fn c) defaultPoolConfig) addrs
    { self := self, addrs := addrs, freeConns := [], freeConnStream := [], usedConns := [],
      lock := false, cfg := opts.foldl (fun c fn => fn c) defaultPoolConfig, nextPtr := 0 }
    A (Or.inl hA)
  refine ⟨rfl, fun A hA => (hk A hA).1, fun A hA => (hk A hA).2.1, fun A hA => ?_⟩
  obtain ⟨ch, h1, h2⟩ := (hk A hA).2.2
  exact ⟨ch, h1, by rw [hcfg]; exact h2⟩

theorem Reachable.keys {self : Nat} {addrs : List String} {opts : List poolOpt} {n : Pool}
    (h : Reachable self addrs opts n) :
    Keys (NewPool self addrs opts).1.cfg.MaxConnPerNode addrs n := by
  induction h with
  | init => exact NewPool_keys self addrs opts
  | get env ctx addr _ ih => exact Pool.Get_keys env ctx addr _ ih
  | resume env ctx addr _ ih =>
    exact Pool.selectWait_keys (fun m hm => Pool.Get_keys env ctx addr m hm) ih
  | release c _ _ ih => exact Pool.Release_keys _ c ih

/-- In a reachable pool every supplied address is configured and its channel
has capacity `MaxConnPerNode`. -/
theorem Reachable.configured {self : Nat} {addrs : List String} {opts : List poolOpt} {n : Pool}
    (h : Reachable self addrs opts n) (A : String) (hA : A ∈ addrs) :
    n.Configured A ∧ n.chanCap A = n.cfg.MaxConnPerNode := by
  have hk := h.keys
  obtain ⟨ch, h1, h2⟩ := hk.chan A hA
  refine ⟨⟨hk.free A hA, hk.used A hA, by rw [h1]; rfl⟩, ?_⟩
  unfold Pool.chanCap
  rw [h1, hk.cfg]
  exact h2

theorem WithOptMaxConnPerNode_fold (nums : List Nat) :
    ∀ cfg : poolconfig,
      ((nums.map WithOptMaxConnPerNode).foldl (fun c fn => fn c) cfg).MaxConnPerNode
        = ((nums.filter (fun k => decide (0 < k))).getLast?).getD cfg.MaxConnPerNode := by
  induction nums with
  | nil => intro cfg; rfl
  | cons k rest ih =>
    intro cfg
    simp only [List.map_cons, List.foldl_cons]
    rw [ih]
    by_cases hk : 0 < k
    · have h1 : (WithOptMaxConnPerNode k cfg).MaxConnPerNode = k := by
        simp [WithOptMaxConnPerNode, hk]
      rw [h1, List.filter_cons_of_pos (by simpa using hk)]
      cases hr : rest.filter (fun k => decide (0 < k)) with
      | nil => simp
      | cons a t =>
        have hne : (a :: t) ≠ [] := List.cons_ne_nil a t
        rw [List.getLast?_cons_cons, List.getLast?_eq_getLast _ hne]
        rfl
    · have h1 : WithOptMaxConnPerNode k cfg = cfg := by
        simp [WithOptMaxConnPerNode, hk]
      rw [h1, List.filter_cons_of_neg (by simpa using hk)]

theorem WithOptMaxConnPerNode_fold_pos (nums : List Nat) :
    ∀ cfg : poolconfig, 0 < cfg.MaxConnPerNode →
      0 < ((nums.map WithOptMaxConnPerNode).foldl (fun c fn => fn c) cfg).MaxConnPerNode := by
  induction nums with
  | nil => intro cfg h; exact h
  | cons k rest ih =>
    intro cfg h
    simp only [List.map_cons, List.foldl_cons]
    apply ih
    by_cases hk : 0 < k
    · simp [WithOptMaxConnPerNode, hk]
    · simpa [WithOptMaxConnPerNode, hk] using h

theorem NewPool.fill_chan (cfg : poolconfig) (addrs : List String) :
    ∀ (pool : Pool) (A : String),
      (A ∈ addrs ∨ pool.freeConnStream.get? A = some { cap := cfg.MaxConnPerNode, len := 0 }) →
      (NewPool.fill cfg addrs pool).freeConnStream.get? A
        = some { cap := cfg.MaxConnPerNode, len := 0 } := by
  induction addrs with
  | nil =>
    intro pool A h
    rcases h with h | h
    · exact absurd h (List.not_mem_nil A)
    · exact h
  | cons a rest ih =>
    intro pool A h
    simp only [NewPool.fill]
    apply ih
    by_cases haA : a = A
    · right; subst haA; simp [GoMap.get?_set]
    · rcases h with h | h
      · left
        rcases List.mem_cons.mp h with h | h
        · exact absurd h.symm haA
        · exact h
      · right; simp [GoMap.get?_set, haA, h]

theorem NewPool_cfg (self : Nat) (addrs : List String) (opts : List poolOpt) :
    (NewPool self addrs opts).1.cfg = opts.foldl (fun c fn => fn c) defaultPoolConfig := by
  simp only [NewPool]
  exact (NewPool.fill_spec _ addrs
    { self := self, addrs := addrs, freeConns := [], freeConnStream := [], usedConns := [],
      lock := false, cfg := opts.foldl (fun c fn => fn c) defaultPoolConfig, nextPtr := 0 }
    (fun _ => rfl) (fun _ => rfl)).2.2.1

theorem Pool.SameElsewhere.refl (A : String) (n : Pool) : Pool.SameElsewhere A n n :=
  ⟨rfl, rfl, fun _ _ => ⟨rfl, rfl, rfl⟩⟩

theorem Pool.SameElsewhere.trans {A : String} {n m k : Pool}
    (h1 : Pool.SameElsewhere A n m) (h2 : Pool.SameElsewhere A m k) :
    Pool.SameElsewhere A n k := by
  refine ⟨h2.1.trans h1.1, h2.2.1.trans h1.2.1, fun B hB => ?_⟩
  obtain ⟨a1, a2, a3⟩ := h1.2.2 B hB
  obtain ⟨b1, b2, b3⟩ := h2.2.2 B hB
  exact ⟨b1.trans a1, b2.trans a2, b3.trans a3⟩

/-- A pool agrees elsewhere with one that differs from it in the entries of
`A`, in the mutex and in the allocation counter only. -/
theorem Pool.SameElsewhere.of_sets (A : String) (n m : Pool) (ha : m.addrs = n.addrs)
    (hc : m.cfg = n.cfg)
    (hf : m.freeConns = n.freeConns ∨ ∃ l, m.freeConns = n.freeConns.set A l)
    (hu : m.usedConns = n.usedConns ∨ ∃ l, m.usedConns = n.usedConns.set A l)
    (hs : m.freeConnStream = n.freeConnStream ∨
      ∃ ch, m.freeConnStream = n.freeConnStream.set A ch) :
    Pool.SameElsewhere A n m := by
  refine ⟨ha, hc, fun B hB => ⟨?_, ?_, ?_⟩⟩
  · have hAB : ¬ A = B := fun h => hB h.symm
    rcases hf with h | ⟨l, h⟩
    · simp [Pool.free, h]
    · simp [Pool.free, h, GoMap.get?_set, hAB]
  · have hAB : ¬ A = B := fun h => hB h.symm
    rcases hu with h | ⟨l, h⟩
    · simp [Pool.inUse, h]
    · simp [Pool.inUse, h, GoMap.get?_set, hAB]
  · have hAB : ¬ A = B := fun h => hB h.symm
    rcases hs with h | ⟨l, h⟩
    · simp [h]
    · simp [h, GoMap.get?_set, hAB]

theorem Pool.markUsed_same {n m : Pool} {A : String} {cn : Conn}
    (hm : n.markUsed A cn = some m) :
    m.addrs = n.addrs ∧ m.cfg = n.cfg ∧ m.freeConns = n.freeConns ∧
    m.freeConnStream = n.freeConnStream ∧ ∃ l, m.usedConns = n.usedConns.set A l := by
  unfold Pool.markUsed at hm
  split at hm
  · exact absurd hm (by simp)
  · injection hm with hm
    subst hm
    exact ⟨rfl, rfl, rfl, rfl, _, rfl⟩

theorem Pool.selectWait_frame {env : Env} {again : Pool → Result} {n : Pool}
    {ctx : Option GoError} {A : String}
    (hagain : ∀ m, Pool.SameElsewhere A m (again m).pool) :
    Pool.SameElsewhere A n (Pool.selectWait env again n ctx A).pool := by
  unfold Pool.selectWait
  simp only
  split
  · exact Pool.SameElsewhere.refl A n
  · split
    · split
      · refine Pool.SameElsewhere.trans ?_ (hagain _)
        exact Pool.SameElsewhere.of_sets A n _ rfl rfl (Or.inl rfl) (Or.inl rfl)
          (Or.inr ⟨_, rfl⟩)
      · exact Pool.SameElsewhere.refl A n
    · exact Pool.SameElsewhere.refl A n

theorem Pool.GetBody_frame {env : Env} {again : Pool → Result} {n : Pool}
    {ctx : Option GoError} {A : String}
    (hagain : ∀ m, Pool.SameElsewhere A m (again m).pool) :
    Pool.SameElsewhere A n (Pool.GetBody env again n ctx A).pool := by
  unfold Pool.GetBody
  split
  · exact Pool.SameElsewhere.refl A n
  · simp only
    split
    · split
      · exact Pool.SameElsewhere.of_sets A n _ rfl rfl (Or.inr ⟨_, rfl⟩) (Or.inl rfl) (Or.inl rfl)
      · rename_i n3 hm
        obtain ⟨h1, h2, h3, h4, l, h5⟩ := Pool.markUsed_same hm
        exact Pool.SameElsewhere.of_sets A n _ h1 h2 (Or.inr ⟨_, h3⟩) (Or.inr ⟨l, h5⟩)
          (Or.inl h4)
    · split
      · split
        · exact Pool.SameElsewhere.of_sets A n _ rfl rfl (Or.inl rfl) (Or.inl rfl) (Or.inl rfl)
        · split
          · exact Pool.SameElsewhere.of_sets A n _ rfl rfl (Or.inl rfl) (Or.inl rfl)
              (Or.inl rfl)
          · rename_i n3 hm
            obtain ⟨h1, h2, h3, h4, l, h5⟩ := Pool.markUsed_same hm
            exact Pool.SameElsewhere.of_sets A n _ h1 h2 (Or.inl h3) (Or.inr ⟨l, h5⟩)
              (Or.inl h4)
      · exact (Pool.SameElsewhere.of_sets A n { n with lock := false } rfl rfl (Or.inl rfl)
          (Or.inl rfl) (Or.inl rfl)).trans (Pool.selectWait_frame hagain)

theorem Pool.Get_frame (env : Env) (ctx : Option GoError) (A : String) (n : Pool) :
    Pool.SameElsewhere A n (Pool.Get env n ctx A).pool := by
  have haux : ∀ fuel (m : Pool), Pool.SameElsewhere A m (Pool.GetAux env ctx A fuel m).pool := by
    intro fuel
    induction fuel with
    | zero => intro m; exact Pool.GetBody_frame (fun k => Pool.SameElsewhere.refl A k)
    | succ k ih => intro m; exact Pool.GetBody_frame ih
  exact haux _ n

theorem Pool.Release_frame (n : Pool) (c : Conn) :
    Pool.SameElsewhere c.Addr n (Pool.Release n c).pool := by
  by_cases hlock : n.lock = true
  · simpa [Pool.Release, hlock] using Pool.SameElsewhere.refl c.Addr n
  · cases hu : n.usedConns.get? c.Addr with
    | none =>
      cases hc : n.freeConnStream.get? c.Addr with
      | none =>
        simpa [Pool.Release, hlock, hu, hc] using Pool.SameElsewhere.of_sets c.Addr n
          { n with lock := true, freeConns := n.freeConns.set c.Addr (n.free c.Addr ++ [c]) }
          rfl rfl (Or.inr ⟨_, rfl⟩) (Or.inl rfl) (Or.inl rfl)
      | some ch =>
        by_cases hroom : ch.len < ch.cap
        · simpa [Pool.Release, hlock, hu, hc, hroom] using Pool.SameElsewhere.of_sets c.Addr n
            { n with lock := false, freeConns := n.freeConns.set c.Addr (n.free c.Addr ++ [c])
                     freeConnStream := n.freeConnStream.set c.Addr { ch with len := ch.len + 1 } }
            rfl rfl (Or.inr ⟨_, rfl⟩) (Or.inl rfl) (Or.inr ⟨_, rfl⟩)
        · simpa [Pool.Release, hlock, hu, hc, hroom] using Pool.SameElsewhere.of_sets c.Addr n
            { n with lock := true, freeConns := n.freeConns.set c.Addr (n.free c.Addr ++ [c]) }
            rfl rfl (Or.inr ⟨_, rfl⟩) (Or.inl rfl) (Or.inl rfl)
    | some s =>
      cases hc : n.freeConnStream.get? c.Addr with
      | none =>
        simpa [Pool.Release, hlock, hu, hc] using Pool.SameElsewhere.of_sets c.Addr n
          { n with lock := true, freeConns := n.freeConns.set c.Addr (n.free c.Addr ++ [c])
                   usedConns := n.usedConns.set c.Addr (s.filter (fun x => decide (x ≠ c))) }
          rfl rfl (Or.inr ⟨_, rfl⟩) (Or.inr ⟨_, rfl⟩) (Or.inl rfl)
      | some ch =>
        by_cases hroom : ch.len < ch.cap
        · simpa [Pool.Release, hlock, hu, hc, hroom] using Pool.SameElsewhere.of_sets c.Addr n
            { n with lock := false, freeConns := n.freeConns.set c.Addr (n.free c.Addr ++ [c])
                     usedConns := n.usedConns.set c.Addr (s.filter (fun x => decide (x ≠ c)))
                     freeConnStream := n.freeConnStream.set c.Addr { ch with len := ch.len + 1 } }
            rfl rfl (Or.inr ⟨_, rfl⟩) (Or.inr ⟨_, rfl⟩) (Or.inr ⟨_, rfl⟩)
        · simpa [Pool.Release, hlock, hu, hc, hroom] using Pool.SameElsewhere.of_sets c.Addr n
            { n with lock := true, freeConns := n.freeConns.set c.Addr (n.free c.Addr ++ [c])
                     usedConns := n.usedConns.set c.Addr (s.filter (fun x => decide (x ≠ c))) }
            rfl rfl (Or.inr ⟨_, rfl⟩) (Or.inr ⟨_, rfl⟩) (Or.inl rfl)

theorem Pool.SameElsewhere.buffered {A : String} {n m : Pool} (h : Pool.SameElsewhere A n m)
    (B : String) (hB : B ≠ A) : m.buffered B = n.buffered B ∧ m.chanCap B = n.chanCap B := by
  unfold Pool.buffered Pool.chanCap
  rw [(h.2.2 B hB).2.2]
  exact ⟨rfl, rfl⟩

theorem GoMap.mem_keys_set {V : Type} (m : GoMap V) (k : String) (v : V) (x : String)
    (h : x ∈ (GoMap.set m k v).map Prod.fst) : x ∈ m.map Prod.fst ∨ x = k := by
  induction m with
  | nil => simp [GoMap.set] at h; exact Or.inr h
  | cons hd t ih =>
    obtain ⟨k1, v1⟩ := hd
    by_cases h1 : k1 = k
    · simp [GoMap.set, h1] at h
      rcases h with h | h
      · exact Or.inr h
      · left; simp; right; exact h
    · simp [GoMap.set, h1] at h
      rcases h with h | h
      · left; simp [h]
      · rcases ih (by simpa using h) with h2 | h2
        · left; simp at h2 ⊢; right; exact h2
        · exact Or.inr h2

theorem GoMap.keys_set_nodup {V : Type} (m : GoMap V) (k : String) (v : V)
    (h : (m.map Prod.fst).Nodup) : ((GoMap.set m k v).map Prod.fst).Nodup := by
  induction m with
  | nil => simp [GoMap.set]
  | cons hd t ih =>
    obtain ⟨k1, v1⟩ := hd
    simp only [List.map_cons, List.nodup_cons] at h
    by_cases h1 : k1 = k
    · subst h1
      simp only [GoMap.set, if_true, List.map_cons, List.nodup_cons]
      exact h
    · simp only [GoMap.set, h1, if_false, List.map_cons, List.nodup_cons]
      refine ⟨fun hx => ?_, ih h.2⟩
      rcases GoMap.mem_keys_set t k v k1 hx with h2 | h2
      · exact h.1 h2
      · exact h1 h2

theorem Shape.mem_of_free {addrs : List String} {n : Pool} (h : Shape addrs n) {A : String}
    {l : List Conn} (hg : n.freeConns.get? A = some l) : A ∈ addrs := by
  by_contra hA
  rw [h.freeKeys A hA] at hg
  exact absurd hg (by simp)

theorem Shape.mem_of_used {addrs : List String} {n : Pool} (h : Shape addrs n) {A : String}
    {l : List Conn} (hg : n.usedConns.get? A = some l) : A ∈ addrs := by
  by_contra hA
  rw [h.usedKeys A hA] at hg
  exact absurd hg (by simp)

theorem Shape.mem_of_chan {addrs : List String} {n : Pool} (h : Shape addrs n) {A : String}
    {ch : Chan} (hg : n.freeConnStream.get? A = some ch) : A ∈ addrs := by
  by_contra hA
  rw [h.chanKeys A hA] at hg
  exact absurd hg (by simp)

/-- The shape survives assignments to the entries of a supplied address. -/
theorem Shape.update {addrs : List String} {n : Pool} (h : Shape addrs n) (A : String) (m : Pool)
    (hf : m.freeConns = n.freeConns ∨ ∃ l, m.freeConns = n.freeConns.set A l ∧ A ∈ addrs)
    (hu : m.usedConns = n.usedConns ∨
      ∃ l, m.usedConns = n.usedConns.set A l ∧ A ∈ addrs ∧ l.Nodup)
    (hs : m.freeConnStream = n.freeConnStream ∨
      ∃ ch, m.freeConnStream = n.freeConnStream.set A ch ∧ A ∈ addrs ∧ ch.len ≤ ch.cap) :
    Shape addrs m := by
  refine ⟨?_, ?_, ?_, ?_, ?_, ?_, ?_⟩
  · intro B hB
    rcases hf with hf | ⟨l, hf, hA⟩
    · rw [hf]; exact h.freeKeys B hB
    · have hAB : ¬ A = B := fun e => hB (e ▸ hA)
      rw [hf, GoMap.get?_set]; simp [hAB, h.freeKeys B hB]
  · intro B hB
    rcases hu with hu | ⟨l, hu, hA, -⟩
    · rw [hu]; exact h.usedKeys B hB
    · have hAB : ¬ A = B := fun e => hB (e ▸ hA)
      rw [hu, GoMap.get?_set]; simp [hAB, h.usedKeys B hB]
  · intro B hB
    rcases hs with hs | ⟨ch, hs, hA, -⟩
    · rw [hs]; exact h.chanKeys B hB
    · have hAB : ¬ A = B := fun e => hB (e ▸ hA)
      rw [hs, GoMap.get?_set]; simp [hAB, h.chanKeys B hB]
  · intro B ch hg
    rcases hs with hs | ⟨ch2, hs, -, hle⟩
    · rw [hs] at hg; exact h.chanLen B ch hg
    · rw [hs, GoMap.get?_set] at hg
      by_cases hAB : A = B
      · simp [hAB] at hg; subst hg; exact hle
      · simp [hAB] at hg; exact h.chanLen B ch hg
  · intro B
    rcases hu with hu | ⟨l, hu, -, hnd⟩
    · have : m.inUse B = n.inUse B := by simp [Pool.inUse, hu]
      rw [this]; exact h.usedNodup B
    · by_cases hAB : A = B
      · have : m.inUse B = l := by simp [Pool.inUse, hu, GoMap.get?_set, hAB]
        rw [this]; exact hnd
      · have : m.inUse B = n.inUse B := by simp [Pool.inUse, hu, GoMap.get?_set, hAB]
        rw [this]; exact h.usedNodup B
  · rcases hf with hf | ⟨l, hf, -⟩
    · rw [hf]; exact h.freeDistinct
    · rw [hf]; exact GoMap.keys_set_nodup _ _ _ h.freeDistinct
  · rcases hu with hu | ⟨l, hu, -, -⟩
    · rw [hu]; exact h.usedDistinct
    · rw [hu]; exact GoMap.keys_set_nodup _ _ _ h.usedDistinct

theorem Shape.afterMarkUsed {addrs : List String} {n m : Pool} {A : String} {cn : Conn}
    (h : Shape addrs n) (hm : n.markUsed A cn = some m) : Shape addrs m := by
  unfold Pool.markUsed at hm
  split at hm
  · exact absurd hm (by simp)
  · rename_i s hs
    injection hm with hm
    subst hm
    refine h.update A _ (Or.inl rfl) (Or.inr ⟨_, rfl, h.mem_of_used hs, ?_⟩) (Or.inl rfl)
    have hnd : s.Nodup := by
      have := h.usedNodup A
      simpa [Pool.inUse, hs] using this
    by_cases hin : cn ∈ s
    · simpa [hin] using hnd
    · simp only [hin, if_false]
      exact List.Nodup.append hnd (List.nodup_singleton cn) (by
        intro x hx hx2
        simp at hx2
        subst hx2
        exact hin hx)

theorem Pool.selectWait_shape {addrs : List String} {env : Env} {again : Pool → Result}
    {n : Pool} {ctx : Option GoError} {A : String}
    (hagain : ∀ m, Shape addrs m → Shape addrs (again m).pool) (h : Shape addrs n) :
    Shape addrs (Pool.selectWait env again n ctx A).pool := by
  unfold Pool.selectWait
  simp only
  split
  · exact h
  · split
    · rename_i ch hch
      split
      · apply hagain
        refine h.update A _ (Or.inl rfl) (Or.inl rfl) (Or.inr ⟨_, rfl, h.mem_of_chan hch, ?_⟩)
        have := h.chanLen A ch hch
        simp only
        omega
      · exact h
    · exact h

theorem Pool.GetBody_shape {addrs : List String} {env : Env} {again : Pool → Result}
    {n : Pool} {ctx : Option GoError} {A : String}
    (hagain : ∀ m, Shape addrs m → Shape addrs (again m).pool) (h : Shape addrs n) :
    Shape addrs (Pool.GetBody env again n ctx A).pool := by
  have hlk : ∀ (b : Bool) (k : Nat), Shape addrs { n with lock := b, nextPtr := k } :=
    fun b k => h.update A _ (Or.inl rfl) (Or.inl rfl) (Or.inl rfl)
  unfold Pool.GetBody
  split
  · exact h
  · simp only
    split
    · rename_i cn cnns heq
      have hA : A ∈ addrs := h.mem_of_free (by simpa using heq)
      have hpop : Shape addrs { n with lock := true, freeConns := n.freeConns.set A cnns } :=
        h.update A _ (Or.inr ⟨_, rfl, hA⟩) (Or.inl rfl) (Or.inl rfl)
      split
      · exact hpop
      · rename_i n3 hm
        exact (hpop.afterMarkUsed hm).update A _ (Or.inl rfl) (Or.inl rfl) (Or.inl rfl)
    · split
      · split
        · exact hlk false _
        · split
          · exact hlk true _
          · rename_i n3 hm
            exact ((hlk true _).afterMarkUsed hm).update A _ (Or.inl rfl) (Or.inl rfl) (Or.inl rfl)
      · exact Pool.selectWait_shape hagain (hlk false _)

theorem Pool.Get_shape {addrs : List String} (env : Env) (ctx : Option GoError) (A : String)
    (n : Pool) (h : Shape addrs n) : Shape addrs (Pool.Get env n ctx A).pool := by
  have haux : ∀ fuel (m : Pool), Shape addrs m →
      Shape addrs (Pool.GetAux env ctx A fuel m).pool := by
    intro fuel
    induction fuel with
    | zero => intro m hm; exact Pool.GetBody_shape (fun _ hk => hk) hm
    | succ k ih => intro m hm; exact Pool.GetBody_shape ih hm
  exact haux _ n h

theorem Pool.Release_shape {addrs : List String} (n : Pool) (c : Conn) (h : Shape addrs n)
    (hin : c ∈ n.inUse c.Addr) : Shape addrs (Pool.Release n c).pool := by
  have hu := Pool.used_of_mem hin
  have hA : c.Addr ∈ addrs := h.mem_of_used hu
  have hnd : ((n.inUse c.Addr).filter (fun x => decide (x ≠ c))).Nodup :=
    (h.usedNodup c.Addr).filter _
  by_cases hlock : n.lock = true
  · simpa [Pool.Release, hlock] using h
  · have h4 : ∀ b : Bool, Shape addrs { n with
        lock := b, freeConns := n.freeConns.set c.Addr (n.free c.Addr ++ [c])
        usedConns := n.usedConns.set c.Addr
          ((n.inUse c.Addr).filter (fun x => decide (x ≠ c))) } :=
      fun b => h.update c.Addr _ (Or.inr ⟨_, rfl, hA⟩) (Or.inr ⟨_, rfl, hA, hnd⟩) (Or.inl rfl)
    cases hc : n.freeConnStream.get? c.Addr with
    | none => simpa [Pool.Release, hlock, hu, hc] using h4 true
    | some ch =>
      by_cases hroom : ch.len < ch.cap
      · have h5 := (h4 false).update c.Addr
          { n with
            lock := false, freeConns := n.freeConns.set c.Addr (n.free c.Addr ++ [c])
            usedConns := n.usedConns.set c.Addr
              ((n.inUse c.Addr).filter (fun x => decide (x ≠ c)))
            freeConnStream := n.freeConnStream.set c.Addr { ch with len := ch.len + 1 } }
          (Or.inl rfl) (Or.inl rfl) (Or.inr ⟨_, rfl, hA, hroom⟩)
        simpa [Pool.Release, hlock, hu, hc, hroom] using h5
      · simpa [Pool.Release, hlock, hu, hc, hroom] using h4 true

theorem NewPool.fill_shape (cfg : poolconfig) (addrs : List String) :
    ∀ (all : List String) (pool : Pool), (∀ A ∈ addrs, A ∈ all) → Shape all pool →
      Shape all (NewPool.fill cfg addrs pool) := by
  induction addrs with
  | nil => intro all pool _ h; exact h
  | cons a rest ih =>
    intro all pool hsub h
    simp only [NewPool.fill]
    have ha : a ∈ all := hsub a (List.mem_cons_self _ _)
    exact ih all _ (fun A hA => hsub A (List.mem_cons_of_mem _ hA))
      (h.update a _ (Or.inr ⟨_, rfl, ha⟩) (Or.inr ⟨_, rfl, ha, List.nodup_nil⟩)
        (Or.inr ⟨_, rfl, ha, Nat.zero_le _⟩))

theorem NewPool_shape (self : Nat) (addrs : List String) (opts : List poolOpt) :
    Shape addrs (NewPool self addrs opts).1 := by
  simp only [NewPool]
  refine NewPool.fill_shape _ addrs addrs _ (fun _ h => h) ?_
  exact ⟨fun _ _ => rfl, fun _ _ => rfl, fun _ _ => rfl,
    fun A ch hg => absurd hg (by simp [GoMap.get?]), fun A => List.nodup_nil,
    List.nodup_nil, List.nodup_nil⟩

theorem Reachable.shape {self : Nat} {addrs : List String} {opts : List poolOpt} {n : Pool}
    (h : Reachable self addrs opts n) : Shape addrs n := by
  induction h with
  | init => exact NewPool_shape self addrs opts
  | get env ctx addr _ ih => exact Pool.Get_shape env ctx addr _ ih
  | resume env ctx addr _ ih =>
    exact Pool.selectWait_shape (fun m hm => Pool.Get_shape env ctx addr m hm) ih
  | release c _ hin ih => exact Pool.Release_shape _ c ih hin

/-- The branch of `Get` that dials, when the dial succeeds but the address has
no in-use set: the assignment to the nil map panics under the mutex. -/
theorem Pool.GetBody_dial_panic (env : Env) (again : Pool → Result) (n : Pool)
    (ctx : Option GoError) (A : String) (tcp : Nat) (hlock : n.lock = false)
    (hfree : n.free A = []) (hlt : (n.inUse A).length < n.cfg.MaxConnPerNode)
    (hused : n.usedConns.get? A = none) (hdial : env.dial A = .ok tcp) :
    Pool.GetBody env again n ctx A =
      { exit := .panicked, pool := { n with lock := true, nextPtr := n.nextPtr + 1 },
        trace := [.lock, .dial A] } := by
  have hlt2 : (({ n with lock := true } : Pool).inUse A).length < n.cfg.MaxConnPerNode := hlt
  rcases Pool.free_nil_cases hfree with hg | hg <;>
    simp [Pool.GetBody, hlock, hg, hlt2, connect, hdial, Pool.markUsed, hused]

theorem Reachable.max_pos {self : Nat} {addrs : List String} {nums : List Nat} {n : Pool}
    (h : Reachable self addrs (nums.map WithOptMaxConnPerNode) n) :
    0 < n.cfg.MaxConnPerNode := by
  rw [h.inv.cfg, NewPool_cfg]
  exact WithOptMaxConnPerNode_fold_pos nums _ (by decide)

/-- The three ways the `select` of `Get` can go. -/
theorem Pool.selectWait_cases (env : Env) (again : Pool → Result) (n : Pool)
    (ctx : Option GoError) (A : String) :
    (ctx = none ∧ n.buffered A = 0 ∧
      Pool.selectWait env again n ctx A = { exit := .blockedSelect, pool := n, trace := [] }) ∨
    (∃ e, ctx = some e ∧
      Pool.selectWait env again n ctx A
        = { exit := .returned none (some e), pool := n, trace := [.ctxDone] }) ∨
    (∃ ch, n.freeConnStream.get? A = some ch ∧ 0 < ch.len ∧
      Pool.selectWait env again n ctx A =
        { exit := (again { n with
            freeConnStream := n.freeConnStream.set A { ch with len := ch.len - 1 } }).exit,
          pool := (again { n with
            freeConnStream := n.freeConnStream.set A { ch with len := ch.len - 1 } }).pool,
          trace := .recv A :: (again { n with
            freeConnStream := n.freeConnStream.set A { ch with len := ch.len - 1 } }).trace }) := by
  cases ctx with
  | some e =>
    rcases Pool.selectWait_done env again n A e with h | h
    · exact Or.inr (Or.inl ⟨e, rfl, h⟩)
    · exact Or.inr (Or.inr h)
  | none =>
    by_cases hb : n.buffered A = 0
    · exact Or.inl ⟨rfl, hb, Pool.selectWait_live_empty env again n A hb⟩
    · right; right
      cases hg : n.freeConnStream.get? A with
      | none => simp [Pool.buffered, hg] at hb
      | some ch =>
        have hpos : 0 < ch.len := by
          simp [Pool.buffered, hg] at hb
          omega
        exact ⟨ch, rfl, hpos, Pool.selectWait_live_recv env again n A ch hg hpos⟩

/-- At full capacity, `Get` calls itself once per notification it receives and
changes nothing but the number of buffered notifications; it ends parked or
with the error of the context. -/
theorem Pool.GetAux_at_capacity (env : Env) (ctx : Option GoError) (A : String) (fuel : Nat) :
    ∀ n : Pool, n.buffered A ≤ fuel → n.lock = false → n.free A = [] →
      n.cfg.MaxConnPerNode ≤ (n.inUse A).length →
      ((Pool.GetAux env ctx A fuel n).exit = .blockedSelect ∧ ctx = none ∧
          (Pool.GetAux env ctx A fuel n).pool.buffered A = 0 ∨
        ∃ e, ctx = some e ∧ (Pool.GetAux env ctx A fuel n).exit = .returned none (some e)) ∧
      retries A (Pool.GetAux env ctx A fuel n).trace
        + (Pool.GetAux env ctx A fuel n).pool.buffered A = n.buffered A ∧
      (∀ a, Event.dial a ∉ (Pool.GetAux env ctx A fuel n).trace) ∧
      (Pool.GetAux env ctx A fuel n).pool.freeConns = n.freeConns ∧
      (Pool.GetAux env ctx A fuel n).pool.usedConns = n.usedConns ∧
      (Pool.GetAux env ctx A fuel n).pool.lock = false := by
  induction fuel with
  | zero =>
    intro n hbuf hlock hfree hfull
    simp only [Pool.GetAux]
    rw [Pool.GetBody_wait env _ n ctx A hlock hfree hfull]
    have hb0 : ({ n with lock := false } : Pool).buffered A = n.buffered A := rfl
    rcases Pool.selectWait_cases env (fun m => { exit := .fuelOut, pool := m, trace := [] })
      { n with lock := false } ctx A with ⟨hc, hb, h⟩ | ⟨e, hc, h⟩ | ⟨ch, hch, hpos, -⟩
    · rw [h]
      refine ⟨Or.inl ⟨rfl, hc, hb⟩, ?_, ?_, rfl, rfl, rfl⟩
      · simp [retries, hb0]
      · intro a ha; simp at ha
    · rw [h]
      refine ⟨Or.inr ⟨e, hc, rfl⟩, ?_, ?_, rfl, rfl, rfl⟩
      · simp [retries, hb0]
      · intro a ha; simp at ha
    · have : n.buffered A = ch.len := by
        simp at hch
        simp [Pool.buffered, hch]
      omega
  | succ k ih =>
    intro n hbuf hlock hfree hfull
    simp only [Pool.GetAux]
    rw [Pool.GetBody_wait env _ n ctx A hlock hfree hfull]
    have hb0 : ({ n with lock := false } : Pool).buffered A = n.buffered A := rfl
    rcases Pool.selectWait_cases env (Pool.GetAux env ctx A k)
      { n with lock := false } ctx A with ⟨hc, hb, h⟩ | ⟨e, hc, h⟩ | ⟨ch, hch, hpos, h⟩
    · rw [h]
      refine ⟨Or.inl ⟨rfl, hc, hb⟩, ?_, ?_, rfl, rfl, rfl⟩
      · simp [retries, hb0]
      · intro a ha; simp at ha
    · rw [h]
      refine ⟨Or.inr ⟨e, hc, rfl⟩, ?_, ?_, rfl, rfl, rfl⟩
      · simp [retries, hb0]
      · intro a ha; simp at ha
    · rw [h]
      have hlen : n.buffered A = ch.len := by
        simp at hch
        simp [Pool.buffered, hch]
      have hb : ({ n with lock := false, freeConnStream :=
          n.freeConnStream.set A { ch with len := ch.len - 1 } } : Pool).buffered A
          = ch.len - 1 := by
        simp [Pool.buffered, GoMap.get?_set]
      obtain ⟨h1, h2, h3, h4, h5, h6⟩ := ih
        ({ n with lock := false, freeConnStream :=
          n.freeConnStream.set A { ch with len := ch.len - 1 } } : Pool)
        (by rw [hb]; omega) rfl hfree hfull
      refine ⟨h1, ?_, ?_, h4, h5, h6⟩
      · simp only at h2 ⊢
        rw [hb] at h2
        simp only [retries, List.count_cons] at h2 ⊢
        simp
        omega
      · intro a ha
        simp at ha
        exact h3 a ha

/-- Unless `Get` finds the free list empty and the address at capacity, its
outcome is fixed before the `select`: it does not depend on the context, its
trace is one of five and has no `ctxDone`, it is not parked in `select`, and a
return leaves the mutex free. -/
theorem Pool.GetBody_nowait (env : Env) (n : Pool) (A : String)
    (h : n.lock = true ∨ n.free A ≠ [] ∨ (n.inUse A).length < n.cfg.MaxConnPerNode) :
    ∃ r : Result, Event.ctxDone ∉ r.trace ∧
      (∀ again ctx, Pool.GetBody env again n ctx A = r) ∧
      (r.trace = [] ∨ r.trace = [.lock] ∨ r.trace = [.lock, .unlock] ∨
        r.trace = [.lock, .dial A] ∨ r.trace = [.lock, .dial A, .unlock]) ∧
      r.exit ≠ .blockedSelect ∧
      (∀ cn err, r.exit = .returned cn err → r.pool.lock = false) := by
  by_cases hlock : n.lock = true
  · exact ⟨{ exit := .blockedLock, pool := n, trace := [] }, by simp,
      fun again ctx => by simp [Pool.GetBody, hlock], by simp, by simp, by simp⟩
  · have hlock2 : n.lock = false := by simpa using hlock
    cases hl : n.free A with
    | cons cn cnns =>
      cases hu : n.usedConns.get? A with
      | none =>
        exact ⟨{ exit := .panicked,
                 pool := { n with lock := true, freeConns := n.freeConns.set A cnns },
                 trace := [.lock] }, by simp, fun again ctx => by
          simp [Pool.GetBody, hlock2, Pool.free_cons hl, Pool.markUsed, hu],
          by simp, by simp, by simp⟩
      | some s =>
        exact ⟨_, by simp, fun again ctx =>
          Pool.GetBody_pop env again n ctx A cn cnns s hlock2 (Pool.free_cons hl) hu,
          by simp, by simp, by simp⟩
    | nil =>
      have hlt : (n.inUse A).length < n.cfg.MaxConnPerNode := by
        rcases h with h | h | h
        · exact absurd h hlock
        · exact absurd hl h
        · exact h
      cases hd : env.dial A with
      | error e =>
        exact ⟨_, by simp, fun again ctx =>
          Pool.GetBody_dial_error env again n ctx A e hlock2 hl hlt hd,
          by simp, by simp, by simp⟩
      | ok tcp =>
        cases hu : n.usedConns.get? A with
        | none =>
          exact ⟨_, by simp, fun again ctx =>
            Pool.GetBody_dial_panic env again n ctx A tcp hlock2 hl hlt hu hd,
            by simp, by simp, by simp⟩
        | some s =>
          exact ⟨_, by simp, fun again ctx =>
            Pool.GetBody_dial_ok env again n ctx A tcp s hlock2 hl hlt hu hd,
            by simp, by simp, by simp⟩

theorem lockedAt_lock_unlock (t : List Event) :
    lockedAt false (.lock :: .unlock :: t)
      = (false, .lock) :: (true, .unlock) :: lockedAt false t := by
  simp [lockedAt, Event.heldAfter]

theorem Pool.GetBody_disciplined (env : Env) (again : Pool → Result) (n : Pool)
    (ctx : Option GoError) (A : String) (hlock : n.lock = false)
    (hagain : ∀ m : Pool, m.lock = false → (again m).Disciplined) :
    (Pool.GetBody env again n ctx A).Disciplined := by
  by_cases hw : n.free A = [] ∧ n.cfg.MaxConnPerNode ≤ (n.inUse A).length
  · rw [Pool.GetBody_wait env again n ctx A hlock hw.1 hw.2]
    rcases Pool.selectWait_cases env again { n with lock := false } ctx A
      with ⟨-, -, h⟩ | ⟨e, -, h⟩ | ⟨ch, -, -, h⟩
    · rw [h]
      refine ⟨?_, ?_, fun _ => rfl, fun cn err hr => absurd hr (by simp)⟩
      · intro held ev hmem hev
        simp [lockedAt, Event.heldAfter] at hmem
        rcases hmem with ⟨-, rfl⟩ | ⟨-, rfl⟩ <;> simp at hev
      · intro held a hmem
        simp [lockedAt, Event.heldAfter] at hmem
    · rw [h]
      refine ⟨?_, ?_, fun hr => absurd hr (by simp), fun cn err _ => rfl⟩
      · intro held ev hmem hev
        simp [lockedAt, Event.heldAfter] at hmem
        rcases hmem with ⟨-, rfl⟩ | ⟨-, rfl⟩ | ⟨rfl, -⟩
        · simp at hev
        · simp at hev
        · rfl
      · intro held a hmem
        simp [lockedAt, Event.heldAfter] at hmem
    · rw [h]
      obtain ⟨d1, d2, d3, d4⟩ := hagain { n with
        lock := false, freeConnStream := n.freeConnStream.set A { ch with len := ch.len - 1 } } rfl
      have hl : ∀ t, lockedAt false (.lock :: .unlock :: .recv A :: t)
          = (false, .lock) :: (true, .unlock) :: (false, .recv A) :: lockedAt false t := by
        intro t; simp [lockedAt, Event.heldAfter]
      refine ⟨?_, ?_, d3, d4⟩
      · intro held ev hmem hev
        simp only [hl, List.mem_cons] at hmem
        rcases hmem with hm | hm | hm | hm
        · exact (Prod.mk.inj hm).1
        · obtain ⟨-, h2⟩ := Prod.mk.inj hm
          subst h2
          simp at hev
        · exact (Prod.mk.inj hm).1
        · exact d1 held ev hm hev
      · intro held a hmem
        simp only [hl, List.mem_cons] at hmem
        rcases hmem with hm | hm | hm | hm
        · exact absurd (Prod.mk.inj hm).2 (by simp)
        · exact absurd (Prod.mk.inj hm).2 (by simp)
        · exact absurd (Prod.mk.inj hm).2 (by simp)
        · exact d2 held a hm
  · have h : n.lock = true ∨ n.free A ≠ [] ∨ (n.inUse A).length < n.cfg.MaxConnPerNode := by
      by_cases h2 : n.free A = []
      · right; right
        by_contra h3
        exact hw ⟨h2, Nat.not_lt.mp h3⟩
      · exact Or.inr (Or.inl h2)
    obtain ⟨r, -, hbody, htr, hex, hret⟩ := Pool.GetBody_nowait env n A h
    rw [hbody again ctx]
    refine ⟨?_, ?_, fun hr => absurd hr hex, hret⟩
    · intro held ev hmem hev
      rcases htr with ht | ht | ht | ht | ht <;> rw [ht] at hmem <;>
        simp [lockedAt, Event.heldAfter] at hmem
      · rcases hmem with ⟨-, rfl⟩; simp at hev
      · rcases hmem with ⟨-, rfl⟩ | ⟨-, rfl⟩ <;> simp at hev
      · rcases hmem with ⟨-, rfl⟩ | ⟨-, rfl⟩ <;> simp at hev
      · rcases hmem with ⟨-, rfl⟩ | ⟨-, rfl⟩ | ⟨-, rfl⟩ <;> simp at hev
    · intro held a hmem
      rcases htr with ht | ht | ht | ht | ht <;> rw [ht] at hmem <;>
        simp [lockedAt, Event.heldAfter] at hmem
      · exact hmem.1
      · exact hmem.1

theorem Pool.Get_disciplined (env : Env) (ctx : Option GoError) (A : String) (n : Pool)
    (hlock : n.lock = false) : (Pool.Get env n ctx A).Disciplined := by
  have haux : ∀ fuel (m : Pool), m.lock = false →
      (Pool.GetAux env ctx A fuel m).Disciplined := by
    intro fuel
    induction fuel with
    | zero =>
      intro m hm
      refine Pool.GetBody_disciplined env _ m ctx A hm (fun k _ => ?_)
      exact ⟨fun _ _ h => by simp [lockedAt] at h, fun _ _ h => by simp [lockedAt] at h,
        fun h => absurd h (by simp), fun _ _ h => absurd h (by simp)⟩
    | succ k ih => intro m hm; exact Pool.GetBody_disciplined env _ m ctx A hm ih
  exact haux _ n hlock

theorem Pool.Release_trace (n : Pool) (c : Conn) (hlock : n.lock = false) :
    ((Pool.Release n c).trace = [.lock] ∧ (Pool.Release n c).exit = .blockedSend) ∨
    ((Pool.Release n c).trace = [.lock, .send c.Addr, .unlock] ∧
      (Pool.Release n c).exit = .returned none none ∧ (Pool.Release n c).pool.lock = false) := by
  cases hu : n.usedConns.get? c.Addr <;> cases hc : n.freeConnStream.get? c.Addr
  · left; simp [Pool.Release, hlock, hu, hc]
  · rename_i ch
    by_cases hroom : ch.len < ch.cap
    · right; simp [Pool.Release, hlock, hu, hc, hroom]
    · left; simp [Pool.Release, hlock, hu, hc, hroom]
  · left; simp [Pool.Release, hlock, hu, hc]
  · rename_i s ch
    by_cases hroom : ch.len < ch.cap
    · right; simp [Pool.Release, hlock, hu, hc, hroom]
    · left; simp [Pool.Release, hlock, hu, hc, hroom]

theorem GoMap.mem_of_get? {V : Type} (m : GoMap V) (k : String) (v : V)
    (h : m.get? k = some v) : (k, v) ∈ m := by
  induction m with
  | nil => simp [GoMap.get?] at h
  | cons hd t ih =>
    obtain ⟨k1, v1⟩ := hd
    by_cases h1 : k1 = k
    · simp [GoMap.get?, h1] at h
      subst h1 h
      exact List.mem_cons_self _ _
    · simp [GoMap.get?, h1] at h
      exact List.mem_cons_of_mem _ (ih h)

theorem GoMap.get?_of_mem {V : Type} (m : GoMap V) (k : String) (v : V)
    (hnd : (m.map Prod.fst).Nodup) (h : (k, v) ∈ m) : m.get? k = some v := by
  induction m with
  | nil => simp at h
  | cons hd t ih =>
    obtain ⟨k1, v1⟩ := hd
    simp only [List.map_cons, List.nodup_cons] at hnd
    rcases List.mem_cons.mp h with h | h
    · injection h with h1 h2
      subst h1 h2
      simp [GoMap.get?]
    · have hk : k ∈ t.map Prod.fst := List.mem_map_of_mem Prod.fst h
      have hne : ¬ k1 = k := fun e => hnd.1 (e ▸ hk)
      simp [GoMap.get?, hne]
      exact ih hnd.2 h

/-- The connections `Close` is called on are, up to order, those of the
entries of `freeConns` followed by those of the entries of `usedConns`. -/
theorem Pool.closeLoops_perm (env : CloseEnv) (n : Pool) (hfair : env.Fair) :
    ((Pool.closeLoops env n).map Prod.fst).Perm
      (n.freeConns.flatMap (fun e => e.2) ++ n.usedConns.flatMap (fun e => e.2)) := by
  unfold Pool.closeLoops
  rw [List.map_append, List.map_flatMap, List.map_flatMap]
  apply List.Perm.append
  · have h1 : ∀ e : String × List Conn,
        List.map Prod.fst (e.2.map (fun cn => (cn, Conn.Close env cn))) = e.2 := by
      intro e; simp [List.map_map, Function.comp_def]
    simp only [h1]
    exact List.Perm.flatMap_right _ (hfair.1 n.freeConns)
  · have h1 : ∀ e : String × List Conn,
        List.map Prod.fst ((env.rangeSet e.2).map (fun cn => (cn, Conn.Close env cn)))
          = env.rangeSet e.2 := by
      intro e; simp [List.map_map, Function.comp_def]
    simp only [h1]
    exact (List.Perm.flatMap_right _ (hfair.1 n.usedConns)).trans
      (List.Perm.flatMap_left _ (fun e _ => hfair.2 e.2))

theorem Pool.closeLoops_fst (env : CloseEnv) (n : Pool) (p : Conn × Option GoError)
    (h : p ∈ Pool.closeLoops env n) : p.2 = env.closeErr p.1 := by
  unfold Pool.closeLoops at h
  simp only [List.mem_append, List.mem_flatMap, List.mem_map] at h
  rcases h with ⟨e, -, cn, -, rfl⟩ | ⟨e, -, cn, -, rfl⟩ <;> rfl

theorem GoMap.flatMap_nodup (m : GoMap (List Conn)) (hkeys : (m.map Prod.fst).Nodup)
    (hnd : ∀ A, ((m.get? A).getD []).Nodup)
    (haddr : ∀ A c, c ∈ (m.get? A).getD [] → c.Addr = A) :
    (m.flatMap (fun e => e.2)).Nodup := by
  rw [List.nodup_flatMap]
  constructor
  · intro e he
    have := hnd e.1
    rw [GoMap.get?_of_mem m e.1 e.2 hkeys he] at this
    exact this
  · have hp : List.Pairwise (fun a b : String × List Conn => a.1 ≠ b.1) m := by
      have := hkeys
      rw [List.Nodup, List.pairwise_map] at this
      exact this
    refine List.Pairwise.imp_of_mem ?_ hp
    intro a b ha hb hab
    intro c hca hcb
    apply hab
    have h1 := haddr a.1 c (by rw [GoMap.get?_of_mem m a.1 a.2 hkeys ha]; exact hca)
    have h2 := haddr b.1 c (by rw [GoMap.get?_of_mem m b.1 b.2 hkeys hb]; exact hcb)
    exact h1.symm.trans h2

theorem Scenario.closeBackwards_fair : Scenario.closeBackwards.Fair :=
  ⟨fun m => List.reverse_perm m, fun s => List.reverse_perm s⟩

/-! ## The claims -/

/-- C1. Capacity invariant: in every pool reachable from `NewPool` by `Get`
and by `Release` of connections in use, every address `A`, supplied to
`NewPool` or not, has `|free(A)| + |in-use(A)| ≤ MaxConnPerNode`, and
`MaxConnPerNode` is still the value configured by `NewPool`. -/
theorem capacity_invariant (self : Nat) (addrs : List String) (opts : List poolOpt) (n : Pool)
    (h : Reachable self addrs opts n) (A : String) :
    (n.free A).length + (n.inUse A).length ≤ n.cfg.MaxConnPerNode ∧
    n.cfg.MaxConnPerNode = (NewPool self addrs opts).1.cfg.MaxConnPerNode := by
  have hinv := h.inv
  exact ⟨by rw [hinv.cfg]; exact hinv.cap A, hinv.cfg⟩

/-- C1 at a concrete pool: one address with cap 1 after one `Get`. -/
theorem capacity_invariant_witness :
    Reachable 1 ["a:1"] [WithOptMaxConnPerNode 1] Scenario.pool1Busy ∧
    ((Scenario.pool1Busy.free "a:1").length + (Scenario.pool1Busy.inUse "a:1").length
        ≤ Scenario.pool1Busy.cfg.MaxConnPerNode ∧
      Scenario.pool1Busy.cfg.MaxConnPerNode
        = (NewPool 1 ["a:1"] [WithOptMaxConnPerNode 1]).1.cfg.MaxConnPerNode) :=
  ⟨Scenario.pool1Busy_reachable,
   capacity_invariant 1 ["a:1"] [WithOptMaxConnPerNode 1] Scenario.pool1Busy
     Scenario.pool1Busy_reachable "a:1"⟩

/-- C2. Exclusivity invariant: in every pool reachable from `NewPool` by `Get`
and by `Release` of connections in use, no connection is at once in a free
list and in an in-use set (of any addresses), no free list holds a connection
twice, and every connection tracked under address `A` has `Addr = A`. -/
theorem exclusivity_invariant (self : Nat) (addrs : List String) (opts : List poolOpt) (n : Pool)
    (h : Reachable self addrs opts n) :
    (∀ A B c, c ∈ n.free A → c ∉ n.inUse B) ∧ (∀ A, (n.free A).Nodup) ∧
    (∀ A c, c ∈ n.free A ∨ c ∈ n.inUse A → c.Addr = A) :=
  ⟨h.inv.excl, h.inv.nodup, h.inv.addr⟩

/-- C2 at a concrete pool: two addresses, two `Get` and one `Release`. -/
theorem exclusivity_invariant_witness :
    Reachable 1 ["a:1", "b:1"] [WithOptMaxConnPerNode 2] Scenario.pool2OneIdle ∧
    ((∀ A B c, c ∈ Scenario.pool2OneIdle.free A → c ∉ Scenario.pool2OneIdle.inUse B) ∧
      (∀ A, (Scenario.pool2OneIdle.free A).Nodup) ∧
      (∀ A c, c ∈ Scenario.pool2OneIdle.free A ∨ c ∈ Scenario.pool2OneIdle.inUse A →
        c.Addr = A)) :=
  ⟨Scenario.pool2OneIdle_reachable,
   exclusivity_invariant 1 ["a:1", "b:1"] [WithOptMaxConnPerNode 2] Scenario.pool2OneIdle
     Scenario.pool2OneIdle_reachable⟩

/-- C3. At the pool reached by `Get`, `Release`, `Get` with `MaxConnPerNode = 1`,
the connection `connA0` is in use while the signal channel already holds as
many notifications as its capacity, and `Release` of it does not return: it
stays blocked on the send with the mutex held. -/
theorem release_blocks_on_full_channel :
    Reachable 1 ["a:1"] [WithOptMaxConnPerNode 1] Scenario.pool1Cycled ∧
    Scenario.connA0 ∈ Scenario.pool1Cycled.inUse "a:1" ∧
    Scenario.pool1Cycled.buffered "a:1" = Scenario.pool1Cycled.chanCap "a:1" ∧
    (Pool.Release Scenario.pool1Cycled Scenario.connA0).exit = Exit.blockedSend ∧
    (Pool.Release Scenario.pool1Cycled Scenario.connA0).pool.lock = true ∧
    (Pool.Get Scenario.dialOk (Pool.Release Scenario.pool1Cycled Scenario.connA0).pool none
      "a:1").exit = Exit.blockedLock := by
  exact ⟨Scenario.pool1Cycled_reachable, by decide, by decide, by decide, by decide, by decide⟩

/-- C4 (amended). FIFO reuse: when the free list of `A` is non-empty, `Get(A)`
returns its first element, the least recently released connection, and leaves
the rest; hence, for a connection `c` in use under `A` while the channel of `A`
is not full, `Release(c)` returns and a following `Get(A)` returns the first
element of the free list as it was before the release when that list was
non-empty, and `c` itself when it was empty. -/
theorem fifo_reuse (env : Env) (ctx : Option GoError) (n : Pool) (A : String)
    (hlock : n.lock = false) (hcfg : n.Configured A) :
    (∀ cn cnns, n.free A = cn :: cnns →
      (Pool.Get env n ctx A).exit = .returned (some cn) none ∧
      (Pool.Get env n ctx A).pool.free A = cnns) ∧
    (∀ c, c ∈ n.inUse A → c.Addr = A → n.buffered A < n.chanCap A →
      (Pool.Release n c).exit = .returned none none ∧
      (Pool.Release n c).pool.free A = n.free A ++ [c] ∧
      (Pool.Get env (Pool.Release n c).pool ctx A).exit
        = .returned (some ((n.free A).headD c)) none) := by
  constructor
  · intro cn cnns hfree
    rw [Pool.Get_pop env n ctx A cn cnns _ hlock (Pool.free_cons hfree)
      (Pool.used_of_isSome hcfg.2.1)]
    exact ⟨rfl, by simp [Pool.free, GoMap.get?_set]⟩
  · intro c hc hA hroom
    subst hA
    obtain ⟨ch, hch, -, -, hlt⟩ := Pool.chan_of_room hroom
    rw [Pool.Release_ok n c _ ch hlock (Pool.used_of_mem hc) hch hlt]
    refine ⟨rfl, by simp [Pool.free, GoMap.get?_set], ?_⟩
    cases hl : n.free c.Addr with
    | nil =>
      rw [Pool.Get_pop env _ ctx c.Addr c [] _ rfl
        (by simp [GoMap.get?_set, hl]) (by simp [GoMap.get?_set]; rfl)]
      rfl
    | cons a t =>
      rw [Pool.Get_pop env _ ctx c.Addr a (t ++ [c]) _ rfl
        (by simp [GoMap.get?_set, hl]) (by simp [GoMap.get?_set]; rfl)]
      rfl

/-- C4 (amended) at a concrete pool: `connA0` idle and `connA1` in use. -/
theorem fifo_reuse_witness :
    Scenario.pool2OneIdle.lock = false ∧ Scenario.pool2OneIdle.Configured "a:1" ∧
    ((∀ cn cnns, Scenario.pool2OneIdle.free "a:1" = cn :: cnns →
      (Pool.Get Scenario.dialOk Scenario.pool2OneIdle none "a:1").exit
        = .returned (some cn) none ∧
      (Pool.Get Scenario.dialOk Scenario.pool2OneIdle none "a:1").pool.free "a:1" = cnns) ∧
    (∀ c, c ∈ Scenario.pool2OneIdle.inUse "a:1" → c.Addr = "a:1" →
      Scenario.pool2OneIdle.buffered "a:1" < Scenario.pool2OneIdle.chanCap "a:1" →
      (Pool.Release Scenario.pool2OneIdle c).exit = .returned none none ∧
      (Pool.Release Scenario.pool2OneIdle c).pool.free "a:1"
        = Scenario.pool2OneIdle.free "a:1" ++ [c] ∧
      (Pool.Get Scenario.dialOk (Pool.Release Scenario.pool2OneIdle c).pool none "a:1").exit
        = .returned (some ((Scenario.pool2OneIdle.free "a:1").headD c)) none)) :=
  ⟨by decide, ⟨by decide, by decide, by decide⟩,
   fifo_reuse Scenario.dialOk none Scenario.pool2OneIdle "a:1" (by decide)
     ⟨by decide, by decide, by decide⟩⟩

/-- C4 as stated fails: with `[connA0, connA1]` idle, `Get` returns the first
element `connA0`, not the last one `connA1`; with `connA0` idle,
`Release(connA1)` followed by `Get` returns `connA0`, not `connA1`; and with
`connA0` in use, nothing idle and the channel full, `Release(connA0)` does not
return and the following `Get` returns nothing. -/
theorem lifo_reuse_counterexample :
    Reachable 1 ["a:1", "b:1"] [WithOptMaxConnPerNode 2] Scenario.pool2Idle ∧
    Scenario.pool2Idle.free "a:1" = [Scenario.connA0, Scenario.connA1] ∧
    (Scenario.pool2Idle.free "a:1").getLast? = some Scenario.connA1 ∧
    (Pool.Get Scenario.dialOk Scenario.pool2Idle none "a:1").exit
      = .returned (some Scenario.connA0) none ∧
    (Pool.Get Scenario.dialOk Scenario.pool2Idle none "a:1").exit
      ≠ .returned (some Scenario.connA1) none ∧
    Reachable 1 ["a:1", "b:1"] [WithOptMaxConnPerNode 2] Scenario.pool2OneIdle ∧
    Scenario.connA1 ∈ Scenario.pool2OneIdle.inUse "a:1" ∧
    (Pool.Get Scenario.dialOk (Pool.Release Scenario.pool2OneIdle Scenario.connA1).pool none
      "a:1").exit ≠ .returned (some Scenario.connA1) none ∧
    Reachable 1 ["a:1"] [WithOptMaxConnPerNode 1] Scenario.pool1Cycled ∧
    Scenario.pool1Cycled.lock = false ∧
    Scenario.connA0 ∈ Scenario.pool1Cycled.inUse "a:1" ∧
    Scenario.pool1Cycled.free "a:1" = [] ∧
    Scenario.pool1Cycled.buffered "a:1" = Scenario.pool1Cycled.chanCap "a:1" ∧
    (Pool.Release Scenario.pool1Cycled Scenario.connA0).exit = .blockedSend ∧
    (Pool.Get Scenario.dialOk (Pool.Release Scenario.pool1Cycled Scenario.connA0).pool none
      "a:1").exit ≠ .returned (some Scenario.connA0) none :=
  ⟨Scenario.pool2Idle_reachable, by decide, by decide, by decide, by decide,
   Scenario.pool2OneIdle_reachable, by decide, by decide,
   Scenario.pool1Cycled_reachable, by decide, by decide, by decide, by decide, by decide,
   by decide⟩

/-- C5. Reuse instead of dialing: in a pool satisfying exclusivity whose
configured address `A` has a non-empty free list, `Get(A)` returns a
connection of `free(A)` with a nil error, taking no step besides locking and
unlocking (no dial, no wait); afterwards the connection is in `in-use(A)`, in
no free list and in no other in-use set, and `|free(A)| + |in-use(A)|` is
unchanged. -/
theorem get_reuses_idle_connection (env : Env) (ctx : Option GoError) (n : Pool) (A : String)
    (hex : n.Exclusive) (hlock : n.lock = false) (hcfg : n.Configured A)
    (hne : n.free A ≠ []) :
    ∃ cn, cn ∈ n.free A ∧
      (Pool.Get env n ctx A).exit = .returned (some cn) none ∧
      (Pool.Get env n ctx A).trace = [.lock, .unlock] ∧
      cn ∈ (Pool.Get env n ctx A).pool.inUse A ∧
      (∀ B, cn ∉ (Pool.Get env n ctx A).pool.free B) ∧
      (∀ B, B ≠ A → cn ∉ (Pool.Get env n ctx A).pool.inUse B) ∧
      ((Pool.Get env n ctx A).pool.free A).length + ((Pool.Get env n ctx A).pool.inUse A).length
        = (n.free A).length + (n.inUse A).length := by
  obtain ⟨hexcl, hnodup, haddr⟩ := hex
  cases hl : n.free A with
  | nil => exact absurd hl hne
  | cons cn cnns =>
    have hmem : cn ∈ n.free A := by rw [hl]; exact List.mem_cons_self _ _
    have hnotin : cn ∉ n.inUse A := hexcl A A cn hmem
    have hnd := hnodup A
    rw [hl] at hnd
    rw [Pool.Get_pop env n ctx A cn cnns _ hlock (Pool.free_cons hl)
      (Pool.used_of_isSome hcfg.2.1)]
    refine ⟨cn, List.mem_cons_self _ _, rfl, rfl, ?_, ?_, ?_, ?_⟩
    · simp [Pool.inUse, GoMap.get?_set]
      simp [Pool.inUse] at hnotin
      simp [hnotin]
    · intro B
      by_cases hAB : A = B
      · subst hAB
        simpa [Pool.free, GoMap.get?_set] using (List.nodup_cons.mp hnd).1
      · intro hB
        have hB2 : cn ∈ n.free B := by simpa [Pool.free, GoMap.get?_set, hAB] using hB
        exact hAB ((haddr A cn (Or.inl hmem)).symm.trans (haddr B cn (Or.inl hB2)))
    · intro B hBA hB
      have hAB : ¬ A = B := fun h => hBA h.symm
      have hB2 : cn ∈ n.inUse B := by simpa [Pool.inUse, GoMap.get?_set, hAB] using hB
      exact hexcl A B cn hmem hB2
    · simp [Pool.inUse] at hnotin
      simp [Pool.free, Pool.inUse, GoMap.get?_set, hnotin]
      omega

/-- C5 at a concrete pool: `connA0` idle under `a:1`. -/
theorem get_reuses_idle_connection_witness :
    Scenario.pool2OneIdle.Exclusive ∧ Scenario.pool2OneIdle.lock = false ∧
    Scenario.pool2OneIdle.Configured "a:1" ∧ Scenario.pool2OneIdle.free "a:1" ≠ [] ∧
    ∃ cn, cn ∈ Scenario.pool2OneIdle.free "a:1" ∧
      (Pool.Get Scenario.dialOk Scenario.pool2OneIdle none "a:1").exit
        = .returned (some cn) none ∧
      (Pool.Get Scenario.dialOk Scenario.pool2OneIdle none "a:1").trace = [.lock, .unlock] ∧
      cn ∈ (Pool.Get Scenario.dialOk Scenario.pool2OneIdle none "a:1").pool.inUse "a:1" ∧
      (∀ B, cn ∉ (Pool.Get Scenario.dialOk Scenario.pool2OneIdle none "a:1").pool.free B) ∧
      (∀ B, B ≠ "a:1" →
        cn ∉ (Pool.Get Scenario.dialOk Scenario.pool2OneIdle none "a:1").pool.inUse B) ∧
      ((Pool.Get Scenario.dialOk Scenario.pool2OneIdle none "a:1").pool.free "a:1").length +
        ((Pool.Get Scenario.dialOk Scenario.pool2OneIdle none "a:1").pool.inUse "a:1").length
        = (Scenario.pool2OneIdle.free "a:1").length
          + (Scenario.pool2OneIdle.inUse "a:1").length :=
  have hex : Scenario.pool2OneIdle.Exclusive :=
    Scenario.pool2OneIdle_reachable.exclusive
  ⟨hex, by decide, ⟨by decide, by decide, by decide⟩, by decide,
   get_reuses_idle_connection Scenario.dialOk none Scenario.pool2OneIdle "a:1" hex
     (by decide) ⟨by decide, by decide, by decide⟩ (by decide)⟩


/-- C6. No blocking under capacity: when the configured address `A` has an
empty free list and fewer than `MaxConnPerNode` connections in use, `Get(A)`
locks, dials once, unlocks and returns, without any wait; when the dial
succeeds it returns, with a nil error, a connection that was tracked nowhere,
with `Addr = A` and owned by this pool, `in-use(A)` grows by exactly that
connection and `free(A)` stays empty. -/
theorem get_dials_under_capacity (env : Env) (ctx : Option GoError) (n : Pool) (A : String)
    (hlock : n.lock = false) (hcfg : n.Configured A) (halloc : n.Allocated)
    (hfree : n.free A = []) (hlt : (n.inUse A).length < n.cfg.MaxConnPerNode) :
    (Pool.Get env n ctx A).trace = [.lock, .dial A, .unlock] ∧
    (∃ cn err, (Pool.Get env n ctx A).exit = .returned cn err) ∧
    (∀ tcp, env.dial A = .ok tcp →
      ∃ cn, (Pool.Get env n ctx A).exit = .returned (some cn) none ∧
        cn.Addr = A ∧ cn.pool = n.self ∧ cn.cnn = tcp ∧
        (∀ B, cn ∉ n.free B ∧ cn ∉ n.inUse B) ∧
        (Pool.Get env n ctx A).pool.inUse A = n.inUse A ++ [cn] ∧
        (Pool.Get env n ctx A).pool.free A = []) := by
  have hfresh : ∀ tcp B, ({ ptr := n.nextPtr, Addr := A, cnn := tcp, pool := n.self } : Conn)
      ∉ n.free B ∧ ({ ptr := n.nextPtr, Addr := A, cnn := tcp, pool := n.self } : Conn)
      ∉ n.inUse B := by
    intro tcp B
    constructor
    · intro hB
      exact absurd (halloc B _ (Or.inl hB)) (lt_irrefl _)
    · intro hB
      exact absurd (halloc B _ (Or.inr hB)) (lt_irrefl _)
  cases hd : env.dial A with
  | error e =>
    have hget := Pool.GetAux_eq_body env ctx A (n.buffered A) n _
      (fun again => Pool.GetBody_dial_error env again n ctx A e hlock hfree hlt hd)
    unfold Pool.Get
    rw [hget]
    exact ⟨rfl, ⟨_, _, rfl⟩, fun tcp h => absurd h (by simp)⟩
  | ok tcp =>
    have hget := Pool.GetAux_eq_body env ctx A (n.buffered A) n _
      (fun again => Pool.GetBody_dial_ok env again n ctx A tcp _ hlock hfree hlt
        (Pool.used_of_isSome hcfg.2.1) hd)
    unfold Pool.Get
    rw [hget]
    refine ⟨rfl, ⟨_, _, rfl⟩, ?_⟩
    intro tcp2 h2
    injection h2 with h2
    subst h2
    refine ⟨_, rfl, rfl, rfl, rfl, hfresh tcp, ?_, ?_⟩
    · have := (hfresh tcp A).2
      simp [Pool.inUse] at this
      simp [Pool.inUse, GoMap.get?_set, this]
    · simpa [Pool.free] using hfree

/-- C6 at a concrete pool: a fresh pool with one address. -/
theorem get_dials_under_capacity_witness :
    Scenario.pool1.lock = false ∧ Scenario.pool1.Configured "a:1" ∧ Scenario.pool1.Allocated ∧
    Scenario.pool1.free "a:1" = [] ∧
    (Scenario.pool1.inUse "a:1").length < Scenario.pool1.cfg.MaxConnPerNode ∧
    ((Pool.Get Scenario.dialOk Scenario.pool1 none "a:1").trace
        = [.lock, .dial "a:1", .unlock] ∧
    (∃ cn err, (Pool.Get Scenario.dialOk Scenario.pool1 none "a:1").exit = .returned cn err) ∧
    (∀ tcp, Scenario.dialOk.dial "a:1" = .ok tcp →
      ∃ cn, (Pool.Get Scenario.dialOk Scenario.pool1 none "a:1").exit
          = .returned (some cn) none ∧
        cn.Addr = "a:1" ∧ cn.pool = Scenario.pool1.self ∧ cn.cnn = tcp ∧
        (∀ B, cn ∉ Scenario.pool1.free B ∧ cn ∉ Scenario.pool1.inUse B) ∧
        (Pool.Get Scenario.dialOk Scenario.pool1 none "a:1").pool.inUse "a:1"
          = Scenario.pool1.inUse "a:1" ++ [cn] ∧
        (Pool.Get Scenario.dialOk Scenario.pool1 none "a:1").pool.free "a:1" = [])) :=
  have hreach : Reachable 1 ["a:1"] [WithOptMaxConnPerNode 1] Scenario.pool1 := Reachable.init
  ⟨by decide, ⟨by decide, by decide, by decide⟩, hreach.allocated, by decide, by decide,
   get_dials_under_capacity Scenario.dialOk none Scenario.pool1 "a:1" (by decide)
     ⟨by decide, by decide, by decide⟩ hreach.allocated (by decide) (by decide)⟩

/-- C7. Dial failure consumes no capacity: when `A` has an empty free list and
fewer than `MaxConnPerNode` connections in use and the dial fails with `e`,
`Get(A)` returns a nil connection and the error `dial failed: %w` wrapping
`e`, dials exactly once, and leaves the pool (every free list, in-use set and
channel) exactly as it was. -/
theorem dial_failure_consumes_no_capacity (env : Env) (ctx : Option GoError) (n : Pool)
    (A : String) (e : GoError) (hlock : n.lock = false) (hfree : n.free A = [])
    (hlt : (n.inUse A).length < n.cfg.MaxConnPerNode) (hdial : env.dial A = .error e) :
    (Pool.Get env n ctx A).exit = .returned none (some (.wrapf "dial failed: " e)) ∧
    (GoError.wrapf "dial failed: " e).Unwrap = some e ∧
    (Pool.Get env n ctx A).trace = [.lock, .dial A, .unlock] ∧
    (Pool.Get env n ctx A).pool = n := by
  have hget := Pool.GetAux_eq_body env ctx A (n.buffered A) n _
    (fun again => Pool.GetBody_dial_error env again n ctx A e hlock hfree hlt hdial)
  unfold Pool.Get
  rw [hget]
  exact ⟨rfl, rfl, rfl, Pool.unlock_eq n hlock⟩

/-- C7 at a concrete pool: a fresh pool whose dial is refused. -/
theorem dial_failure_consumes_no_capacity_witness :
    Scenario.pool1.lock = false ∧ Scenario.pool1.free "a:1" = [] ∧
    (Scenario.pool1.inUse "a:1").length < Scenario.pool1.cfg.MaxConnPerNode ∧
    Scenario.dialFail.dial "a:1" = .error (.leaf "connection refused") ∧
    ((Pool.Get Scenario.dialFail Scenario.pool1 none "a:1").exit
      = .returned none (some (.wrapf "dial failed: " (.leaf "connection refused"))) ∧
    (GoError.wrapf "dial failed: " (.leaf "connection refused")).Unwrap
      = some (.leaf "connection refused") ∧
    (Pool.Get Scenario.dialFail Scenario.pool1 none "a:1").trace
      = [.lock, .dial "a:1", .unlock] ∧
    (Pool.Get Scenario.dialFail Scenario.pool1 none "a:1").pool = Scenario.pool1) :=
  ⟨by decide, by decide, by decide, rfl,
   dial_failure_consumes_no_capacity Scenario.dialFail none Scenario.pool1 "a:1"
     (.leaf "connection refused") (by decide) (by decide) (by decide) rfl⟩

/-- C10. Release postcondition: for a connection `c` in `in-use(A)` with
`c.Addr = A` and room on the channel of `A`, `Release(c)` returns nil;
afterwards `free(A)` is the old free list with `c` appended, `in-use(A)` is the
old set without `c`, one more notification is buffered on the channel of `A`
and the mutex is free again; and `Conn.Release` on `c` is `Pool.Release(c)` on
the pool `c.pool` points to. -/
theorem release_postcondition (n : Pool) (A : String) (c : Conn) (hlock : n.lock = false)
    (hc : c ∈ n.inUse A) (hA : c.Addr = A) (hroom : n.buffered A < n.chanCap A) :
    (Pool.Release n c).exit = .returned none none ∧
    (Pool.Release n c).pool.free A = n.free A ++ [c] ∧
    (Pool.Release n c).pool.inUse A = (n.inUse A).filter (fun x => decide (x ≠ c)) ∧
    c ∉ (Pool.Release n c).pool.inUse A ∧
    (Pool.Release n c).pool.buffered A = n.buffered A + 1 ∧
    (Pool.Release n c).pool.lock = false ∧
    (Pool.Release n c).trace = [.lock, .send A, .unlock] ∧
    (∀ deref : Nat → Option Pool, deref c.pool = some n →
      Conn.Release deref c = some (Pool.Release n c)) := by
  subst hA
  obtain ⟨ch, hch, hlen, -, hlt⟩ := Pool.chan_of_room hroom
  refine ⟨?_, ?_, ?_, ?_, ?_, ?_, ?_, ?_⟩
  · rw [Pool.Release_ok n c _ ch hlock (Pool.used_of_mem hc) hch hlt]
  · rw [Pool.Release_ok n c _ ch hlock (Pool.used_of_mem hc) hch hlt]
    simp [Pool.free, GoMap.get?_set]
  · rw [Pool.Release_ok n c _ ch hlock (Pool.used_of_mem hc) hch hlt]
    simp [Pool.inUse, GoMap.get?_set]
  · rw [Pool.Release_ok n c _ ch hlock (Pool.used_of_mem hc) hch hlt]
    simp [Pool.inUse, GoMap.get?_set]
  · rw [Pool.Release_ok n c _ ch hlock (Pool.used_of_mem hc) hch hlt]
    simp [Pool.buffered, GoMap.get?_set, hch]
  · rw [Pool.Release_ok n c _ ch hlock (Pool.used_of_mem hc) hch hlt]
  · rw [Pool.Release_ok n c _ ch hlock (Pool.used_of_mem hc) hch hlt]
  · intro deref hd
    simp [Conn.Release, hd]

/-- C10 at a concrete pool: `connA0` in use under `a:1`, channel empty. -/
theorem release_postcondition_witness :
    Scenario.pool1Busy.lock = false ∧ Scenario.connA0 ∈ Scenario.pool1Busy.inUse "a:1" ∧
    Scenario.connA0.Addr = "a:1" ∧
    Scenario.pool1Busy.buffered "a:1" < Scenario.pool1Busy.chanCap "a:1" ∧
    ((Pool.Release Scenario.pool1Busy Scenario.connA0).exit = .returned none none ∧
    (Pool.Release Scenario.pool1Busy Scenario.connA0).pool.free "a:1"
      = Scenario.pool1Busy.free "a:1" ++ [Scenario.connA0] ∧
    (Pool.Release Scenario.pool1Busy Scenario.connA0).pool.inUse "a:1"
      = (Scenario.pool1Busy.inUse "a:1").filter (fun x => decide (x ≠ Scenario.connA0)) ∧
    Scenario.connA0 ∉ (Pool.Release Scenario.pool1Busy Scenario.connA0).pool.inUse "a:1" ∧
    (Pool.Release Scenario.pool1Busy Scenario.connA0).pool.buffered "a:1"
      = Scenario.pool1Busy.buffered "a:1" + 1 ∧
    (Pool.Release Scenario.pool1Busy Scenario.connA0).pool.lock = false ∧
    (Pool.Release Scenario.pool1Busy Scenario.connA0).trace
      = [.lock, .send "a:1", .unlock] ∧
    (∀ deref : Nat → Option Pool, deref Scenario.connA0.pool = some Scenario.pool1Busy →
      Conn.Release deref Scenario.connA0
        = some (Pool.Release Scenario.pool1Busy Scenario.connA0))) :=
  ⟨by decide, by decide, by decide, by decide,
   release_postcondition Scenario.pool1Busy "a:1" Scenario.connA0 (by decide) (by decide)
     (by decide) (by decide)⟩

/-- C8. Cancellation: when `A` is at full capacity (`free(A)` empty and
`|in-use(A)| = MaxConnPerNode`) and the context is already done with error
`e`, `Get(ctx, A)` returns a nil connection and exactly `e`, whatever the
number of buffered notifications and whatever `select` picks; it never dials,
and it leaves every free list and every in-use set unchanged. -/
theorem get_cancelled_at_capacity (env : Env) (n : Pool) (A : String) (e : GoError)
    (hlock : n.lock = false) (hfree : n.free A = [])
    (hfull : (n.inUse A).length = n.cfg.MaxConnPerNode) :
    (Pool.Get env n (some e) A).exit = .returned none (some e) ∧
    (∀ a, Event.dial a ∉ (Pool.Get env n (some e) A).trace) ∧
    (∀ B, (Pool.Get env n (some e) A).pool.free B = n.free B) ∧
    (∀ B, (Pool.Get env n (some e) A).pool.inUse B = n.inUse B) ∧
    (Pool.Get env n (some e) A).pool.lock = false := by
  obtain ⟨h1, h2, h3, h4, h5, -, -⟩ :=
    Pool.GetAux_cancelled env A e (n.buffered A) n (le_refl _) hlock hfree (le_of_eq hfull.symm)
  refine ⟨h1, h2, fun B => ?_, fun B => ?_, h5⟩
  · unfold Pool.free Pool.Get; rw [h3]
  · unfold Pool.inUse Pool.Get; rw [h4]

/-- C8 at a concrete pool: cap 1, one connection in use, one notification
buffered, and a `select` that takes the channel while it can. -/
theorem get_cancelled_at_capacity_witness :
    Scenario.pool1Cycled.lock = false ∧ Scenario.pool1Cycled.free "a:1" = [] ∧
    (Scenario.pool1Cycled.inUse "a:1").length = Scenario.pool1Cycled.cfg.MaxConnPerNode ∧
    ((Pool.Get Scenario.dialOk Scenario.pool1Cycled (some Scenario.canceled) "a:1").exit
      = .returned none (some Scenario.canceled) ∧
    (∀ a, Event.dial a ∉
      (Pool.Get Scenario.dialOk Scenario.pool1Cycled (some Scenario.canceled) "a:1").trace) ∧
    (∀ B, (Pool.Get Scenario.dialOk Scenario.pool1Cycled (some Scenario.canceled) "a:1").pool.free
      B = Scenario.pool1Cycled.free B) ∧
    (∀ B, (Pool.Get Scenario.dialOk Scenario.pool1Cycled (some Scenario.canceled)
      "a:1").pool.inUse B = Scenario.pool1Cycled.inUse B) ∧
    (Pool.Get Scenario.dialOk Scenario.pool1Cycled (some Scenario.canceled) "a:1").pool.lock
      = false) :=
  ⟨by decide, by decide, by decide,
   get_cancelled_at_capacity Scenario.dialOk Scenario.pool1Cycled "a:1" Scenario.canceled
     (by decide) (by decide) (by decide)⟩

/-- C9. Blocking and wakeup: when `free(A)` is empty, `|in-use(A)|` equals
`MaxConnPerNode` and nothing is buffered, a `Get(A)` with a live context does
not return: it parks in its `select` with the pool unchanged and stays parked
when it is stepped again. After `Release(c)` of a connection `c` in use under
`A` (channel of capacity `MaxConnPerNode`), the parked `Get` receives the
notification, runs again and returns `c` itself with a nil error, without a
dial. -/
theorem get_blocks_until_release (env : Env) (n : Pool) (A : String)
    (hlock : n.lock = false) (hfree : n.free A = [])
    (hfull : (n.inUse A).length = n.cfg.MaxConnPerNode) (hbuf : n.buffered A = 0) :
    (Pool.Get env n none A).exit = .blockedSelect ∧
    (Pool.Get env n none A).pool = n ∧
    (Pool.Get env n none A).trace = [.lock, .unlock] ∧
    (Pool.resume env n none A).exit = .blockedSelect ∧
    (∀ c, c ∈ n.inUse A → c.Addr = A → n.chanCap A = n.cfg.MaxConnPerNode →
      (Pool.Release n c).exit = .returned none none ∧
      (Pool.resume env (Pool.Release n c).pool none A).exit = .returned (some c) none ∧
      (Pool.resume env (Pool.Release n c).pool none A).trace = [.recv A, .lock, .unlock] ∧
      c ∈ (Pool.resume env (Pool.Release n c).pool none A).pool.inUse A ∧
      (Pool.resume env (Pool.Release n c).pool none A).pool.free A = [] ∧
      (Pool.resume env (Pool.Release n c).pool none A).pool.buffered A = 0) := by
  have hget : Pool.Get env n none A
      = { exit := .blockedSelect, pool := n, trace := [.lock, .unlock] } := by
    unfold Pool.Get
    rw [hbuf]
    simp only [Pool.GetAux]
    rw [Pool.GetBody_wait env _ n none A hlock hfree (le_of_eq hfull.symm),
      Pool.selectWait_live_empty env _ _ A (by simpa [Pool.buffered] using hbuf)]
    simp [Pool.unlock_eq n hlock]
  refine ⟨by rw [hget], by rw [hget], by rw [hget], ?_, ?_⟩
  · unfold Pool.resume
    rw [Pool.selectWait_live_empty env _ n A hbuf]
  · intro c hc hA hcap
    subst hA
    have hpos : 0 < (n.inUse c.Addr).length := List.length_pos_of_mem hc
    have hroom : n.buffered c.Addr < n.chanCap c.Addr := by omega
    obtain ⟨ch, hch, hlen, -, hlt⟩ := Pool.chan_of_room hroom
    have hlen0 : ch.len = 0 := by omega
    rw [Pool.Release_ok n c _ ch hlock (Pool.used_of_mem hc) hch hlt]
    unfold Pool.resume
    rw [Pool.selectWait_live_recv env _ _ c.Addr { ch with len := ch.len + 1 }
      (by simp [GoMap.get?_set]) (by simp)]
    simp only
    rw [Pool.Get_pop env _ none c.Addr c [] ((n.inUse c.Addr).filter (fun x => decide (x ≠ c)))
      rfl (by simp [GoMap.get?_set, hfree]) (by simp [GoMap.get?_set])]
    refine ⟨?_, ?_, ?_, ?_, ?_, ?_⟩
    · trivial
    · rfl
    · rfl
    · simp [Pool.inUse, GoMap.get?_set]
    · simp [Pool.free, GoMap.get?_set]
    · simp [Pool.buffered, GoMap.get?_set, hlen0]

/-- C9 at two concrete pools: cap 1 after one `Get`, and the two addresses
with cap 2 after two `Get` on `a:1`, the third `Get` parked and `connA0`
released. -/
theorem get_blocks_until_release_witness :
    (Scenario.pool1Busy.lock = false ∧ Scenario.pool1Busy.free "a:1" = [] ∧
      (Scenario.pool1Busy.inUse "a:1").length = Scenario.pool1Busy.cfg.MaxConnPerNode ∧
      Scenario.pool1Busy.buffered "a:1" = 0 ∧
      (Pool.Get Scenario.dialOk Scenario.pool1Busy none "a:1").exit = .blockedSelect ∧
      (Pool.resume Scenario.dialOk (Pool.Release Scenario.pool1Busy Scenario.connA0).pool none
        "a:1").exit = .returned (some Scenario.connA0) none) ∧
    (Scenario.pool2Busy.lock = false ∧ Scenario.pool2Busy.free "a:1" = [] ∧
      (Scenario.pool2Busy.inUse "a:1").length = Scenario.pool2Busy.cfg.MaxConnPerNode ∧
      Scenario.pool2Busy.buffered "a:1" = 0 ∧
      (Pool.Get Scenario.dialOk Scenario.pool2Busy none "a:1").exit = .blockedSelect ∧
      (Pool.resume Scenario.dialOk (Pool.Release Scenario.pool2Busy Scenario.connA0).pool none
        "a:1").exit = .returned (some Scenario.connA0) none) :=
  have h1 := get_blocks_until_release Scenario.dialOk Scenario.pool1Busy "a:1"
    (by decide) (by decide) (by decide) (by decide)
  have h2 := get_blocks_until_release Scenario.dialOk Scenario.pool2Busy "a:1"
    (by decide) (by decide) (by decide) (by decide)
  ⟨⟨by decide, by decide, by decide, by decide, h1.1,
     (h1.2.2.2.2 Scenario.connA0 (by decide) (by decide) (by decide)).2.1⟩,
   ⟨by decide, by decide, by decide, by decide, h2.1,
     (h2.2.2.2.2 Scenario.connA0 (by decide) (by decide) (by decide)).2.1⟩⟩

/-- C13. Configuration: for every list of arguments given to
`WithOptMaxConnPerNode` and applied by `NewPool` in order, `MaxConnPerNode` is
the last positive argument, or the default 10 when there is none, hence
positive; `NewPool` returns a nil error, an unlocked pool holding the supplied
address list, and for every supplied address an empty free list, an empty
in-use set and an empty channel of capacity `MaxConnPerNode`. -/
theorem newpool_configuration (self : Nat) (addrs : List String) (nums : List Nat) :
    (NewPool self addrs (nums.map WithOptMaxConnPerNode)).2 = none ∧
    (NewPool self addrs (nums.map WithOptMaxConnPerNode)).1.cfg.MaxConnPerNode
      = ((nums.filter (fun k => decide (0 < k))).getLast?).getD 10 ∧
    0 < (NewPool self addrs (nums.map WithOptMaxConnPerNode)).1.cfg.MaxConnPerNode ∧
    (NewPool self addrs (nums.map WithOptMaxConnPerNode)).1.lock = false ∧
    (NewPool self addrs (nums.map WithOptMaxConnPerNode)).1.addrs = addrs ∧
    (∀ A, A ∈ addrs →
      (NewPool self addrs (nums.map WithOptMaxConnPerNode)).1.Configured A ∧
      (NewPool self addrs (nums.map WithOptMaxConnPerNode)).1.free A = [] ∧
      (NewPool self addrs (nums.map WithOptMaxConnPerNode)).1.inUse A = [] ∧
      (NewPool self addrs (nums.map WithOptMaxConnPerNode)).1.buffered A = 0 ∧
      (NewPool self addrs (nums.map WithOptMaxConnPerNode)).1.chanCap A
        = (NewPool self addrs (nums.map WithOptMaxConnPerNode)).1.cfg.MaxConnPerNode) := by
  have hcfg := NewPool_cfg self addrs (nums.map WithOptMaxConnPerNode)
  obtain ⟨hf, hu, -, -, hl, -, ha⟩ := NewPool.fill_spec
    ((nums.map WithOptMaxConnPerNode).foldl (fun c fn => fn c) defaultPoolConfig) addrs
    { self := self, addrs := addrs, freeConns := [], freeConnStream := [], usedConns := [],
      lock := false,
      cfg := (nums.map WithOptMaxConnPerNode).foldl (fun c fn => fn c) defaultPoolConfig,
      nextPtr := 0 }
    (fun _ => rfl) (fun _ => rfl)
  refine ⟨rfl, ?_, ?_, hl, ha, ?_⟩
  · rw [hcfg, WithOptMaxConnPerNode_fold]; rfl
  · rw [hcfg]; exact WithOptMaxConnPerNode_fold_pos nums _ (by decide)
  · intro A hA
    have hk := (NewPool_keys self addrs (nums.map WithOptMaxConnPerNode))
    have hch := NewPool.fill_chan
      ((nums.map WithOptMaxConnPerNode).foldl (fun c fn => fn c) defaultPoolConfig) addrs
      { self := self, addrs := addrs, freeConns := [], freeConnStream := [], usedConns := [],
        lock := false,
        cfg := (nums.map WithOptMaxConnPerNode).foldl (fun c fn => fn c) defaultPoolConfig,
        nextPtr := 0 } A (Or.inl hA)
    have hch2 : (NewPool self addrs (nums.map WithOptMaxConnPerNode)).1.freeConnStream.get? A
        = some { cap := ((nums.map WithOptMaxConnPerNode).foldl (fun c fn => fn c)
            defaultPoolConfig).MaxConnPerNode, len := 0 } := hch
    refine ⟨⟨hk.free A hA, hk.used A hA, by rw [hch2]; rfl⟩, hf A, hu A, ?_, ?_⟩
    · unfold Pool.buffered; rw [hch2]
    · unfold Pool.chanCap; rw [hch2, hcfg]

/-- C13 at concrete options: 3, then 0, then 5, then 0 give the cap 5, and no
positive option gives the default. -/
theorem newpool_configuration_witness :
    (NewPool 1 ["a:1", "b:1"] ([3, 0, 5, 0].map WithOptMaxConnPerNode)).1.cfg.MaxConnPerNode = 5 ∧
    (NewPool 1 ["a:1", "b:1"] ([0].map WithOptMaxConnPerNode)).1.cfg.MaxConnPerNode = 10 ∧
    "b:1" ∈ ["a:1", "b:1"] ∧
    (NewPool 1 ["a:1", "b:1"] ([3, 0, 5, 0].map WithOptMaxConnPerNode)).1.chanCap "b:1" = 5 ∧
    (NewPool 1 ["a:1", "b:1"] ([3, 0, 5, 0].map WithOptMaxConnPerNode)).1.buffered "b:1" = 0 :=
  have h := newpool_configuration 1 ["a:1", "b:1"] [3, 0, 5, 0]
  have h0 := newpool_configuration 1 ["a:1", "b:1"] [0]
  have hb := h.2.2.2.2.2 "b:1" (by decide)
  ⟨h.2.1, h0.2.1, by decide, hb.2.2.2.2.trans h.2.1, hb.2.2.2.1⟩

/-- C14. Double release corrupts bookkeeping silently: in the pool reached by
two `Get` on `a:1` and one `Release(connA0)` (cap 2), `connA0` is not in use,
yet a second `Release(connA0)` returns nil; afterwards `connA0` occurs twice
in the free list and `|free| + |in-use|` is 3, above the cap; a later `Get`
returns `connA0` and leaves it both idle and in use. -/
theorem double_release_corrupts :
    Reachable 1 ["a:1", "b:1"] [WithOptMaxConnPerNode 2] Scenario.pool2OneIdle ∧
    Scenario.connA0 ∉ Scenario.pool2OneIdle.inUse "a:1" ∧
    (Pool.Release Scenario.pool2OneIdle Scenario.connA0).exit = .returned none none ∧
    Scenario.pool2Double.free "a:1" = [Scenario.connA0, Scenario.connA0] ∧
    (Scenario.pool2Double.free "a:1").count Scenario.connA0 = 2 ∧
    Scenario.pool2Double.cfg.MaxConnPerNode <
      (Scenario.pool2Double.free "a:1").length + (Scenario.pool2Double.inUse "a:1").length ∧
    (Pool.Get Scenario.dialOk Scenario.pool2Double none "a:1").exit
      = .returned (some Scenario.connA0) none ∧
    Scenario.connA0 ∈ (Pool.Get Scenario.dialOk Scenario.pool2Double none "a:1").pool.free "a:1" ∧
    Scenario.connA0 ∈ (Pool.Get Scenario.dialOk Scenario.pool2Double none "a:1").pool.inUse "a:1" :=
  ⟨Scenario.pool2OneIdle_reachable, by decide, by decide, by decide, by decide, by decide,
   by decide, by decide, by decide⟩

/-- C15 (amended). Dial errors wrap the transport error: when the dial to `A`
fails with `e`, the error returned by `Get` is `fmt.Errorf("dial failed: %w", e)`:
unwrapping it gives `e` back and its message is the fixed text `dial failed: `
followed by the message of `e`; the pool adds nothing that depends on `A`. -/
theorem dial_error_wraps_transport_error (env : Env) (ctx : Option GoError) (n : Pool)
    (A : String) (e : GoError) (hlock : n.lock = false) (hfree : n.free A = [])
    (hlt : (n.inUse A).length < n.cfg.MaxConnPerNode) (hdial : env.dial A = .error e) :
    ∃ err, (Pool.Get env n ctx A).exit = .returned none (some err) ∧
      err.Unwrap = some e ∧ err.Error = "dial failed: " ++ e.Error ∧
      err = GoError.wrapf "dial failed: " e := by
  have hget := Pool.GetAux_eq_body env ctx A (n.buffered A) n _
    (fun again => Pool.GetBody_dial_error env again n ctx A e hlock hfree hlt hdial)
  unfold Pool.Get
  rw [hget]
  exact ⟨_, rfl, rfl, rfl, rfl⟩

/-- C15 (amended) at a concrete pool: a refused dial to `a:1`. -/
theorem dial_error_wraps_transport_error_witness :
    Scenario.pool2.lock = false ∧ Scenario.pool2.free "a:1" = [] ∧
    (Scenario.pool2.inUse "a:1").length < Scenario.pool2.cfg.MaxConnPerNode ∧
    Scenario.dialFail.dial "a:1" = .error (.leaf "connection refused") ∧
    ∃ err, (Pool.Get Scenario.dialFail Scenario.pool2 none "a:1").exit
        = .returned none (some err) ∧
      err.Unwrap = some (.leaf "connection refused") ∧
      err.Error = "dial failed: " ++ (GoError.leaf "connection refused").Error ∧
      err = GoError.wrapf "dial failed: " (.leaf "connection refused") :=
  ⟨by decide, by decide, by decide, rfl,
   dial_error_wraps_transport_error Scenario.dialFail none Scenario.pool2 "a:1"
     (.leaf "connection refused") (by decide) (by decide) (by decide) rfl⟩

/-- C15 as stated fails: refused dials to `a:1` and to `b:1` give `Get` the
same error, whose message `dial failed: connection refused` names neither
address. -/
theorem dial_error_address_counterexample :
    (Pool.Get Scenario.dialFail Scenario.pool2 none "a:1").exit
      = .returned none (some (.wrapf "dial failed: " (.leaf "connection refused"))) ∧
    (Pool.Get Scenario.dialFail Scenario.pool2 none "b:1").exit
      = .returned none (some (.wrapf "dial failed: " (.leaf "connection refused"))) ∧
    (GoError.wrapf "dial failed: " (.leaf "connection refused")).Error
      = "dial failed: connection refused" ∧
    "a:1" ≠ "b:1" := by
  decide

/-- C18. Per-address frame: `Get(A)` and `Release(c)` with `c.Addr = A` leave
the free list, the in-use set and the buffered notifications of every other
address `B` unchanged, and keep the address list and `MaxConnPerNode` of the
pool, however the call ends. -/
theorem per_address_frame (env : Env) (ctx : Option GoError) (n : Pool) (A B : String)
    (hB : B ≠ A) :
    ((Pool.Get env n ctx A).pool.free B = n.free B ∧
      (Pool.Get env n ctx A).pool.inUse B = n.inUse B ∧
      (Pool.Get env n ctx A).pool.buffered B = n.buffered B ∧
      (Pool.Get env n ctx A).pool.addrs = n.addrs ∧
      (Pool.Get env n ctx A).pool.cfg.MaxConnPerNode = n.cfg.MaxConnPerNode) ∧
    (∀ c : Conn, c.Addr = A →
      (Pool.Release n c).pool.free B = n.free B ∧
      (Pool.Release n c).pool.inUse B = n.inUse B ∧
      (Pool.Release n c).pool.buffered B = n.buffered B ∧
      (Pool.Release n c).pool.addrs = n.addrs ∧
      (Pool.Release n c).pool.cfg.MaxConnPerNode = n.cfg.MaxConnPerNode) := by
  constructor
  · have h := Pool.Get_frame env ctx A n
    exact ⟨(h.2.2 B hB).1, (h.2.2 B hB).2.1, (h.buffered B hB).1, h.1, by rw [h.2.1]⟩
  · intro c hc
    subst hc
    have h := Pool.Release_frame n c
    exact ⟨(h.2.2 B hB).1, (h.2.2 B hB).2.1, (h.buffered B hB).1, h.1, by rw [h.2.1]⟩

/-- C18 at a concrete pool: calls on `a:1` seen from `b:1`. -/
theorem per_address_frame_witness :
    "b:1" ≠ "a:1" ∧
    (Pool.Get Scenario.dialOk Scenario.pool2OneIdle none "a:1").pool.free "b:1"
      = Scenario.pool2OneIdle.free "b:1" ∧
    (Pool.Release Scenario.pool2OneIdle Scenario.connA1).pool.buffered "b:1"
      = Scenario.pool2OneIdle.buffered "b:1" :=
  have h := per_address_frame Scenario.dialOk none Scenario.pool2OneIdle "a:1" "b:1" (by decide)
  ⟨by decide, h.1.1, (h.2 Scenario.connA1 rfl).2.2.1⟩

/-- C16. Unknown address: in a pool reachable from `NewPool addrs` (options
built with `WithOptMaxConnPerNode`), `Get` on an address `A` outside `addrs`
never returns a connection and leaves `A` without any bookkeeping entry. With
the mutex free it locks and dials, `A` counting zero connections in use: when
the dial fails it returns the wrapped dial error and the pool is unchanged;
when the dial succeeds it panics on the write to the missing in-use set, the
mutex still held, every free list, in-use set and channel unchanged. -/
theorem get_unknown_address (self : Nat) (addrs : List String) (nums : List Nat) (n : Pool)
    (h : Reachable self addrs (nums.map WithOptMaxConnPerNode) n)
    (env : Env) (ctx : Option GoError) (A : String) (hA : A ∉ addrs) :
    (∀ cn err, (Pool.Get env n ctx A).exit = .returned cn err → cn = none) ∧
    ((Pool.Get env n ctx A).pool.freeConns.get? A = none ∧
      (Pool.Get env n ctx A).pool.usedConns.get? A = none ∧
      (Pool.Get env n ctx A).pool.freeConnStream.get? A = none) ∧
    (n.lock = false →
      (n.inUse A).length = 0 ∧
      (∀ e, env.dial A = .error e →
        (Pool.Get env n ctx A).exit = .returned none (some (.wrapf "dial failed: " e)) ∧
        (Pool.Get env n ctx A).trace = [.lock, .dial A, .unlock] ∧
        (Pool.Get env n ctx A).pool = n) ∧
      (∀ tcp, env.dial A = .ok tcp →
        (Pool.Get env n ctx A).exit = .panicked ∧
        (Pool.Get env n ctx A).trace = [.lock, .dial A] ∧
        (Pool.Get env n ctx A).pool.lock = true ∧
        (Pool.Get env n ctx A).pool.freeConns = n.freeConns ∧
        (Pool.Get env n ctx A).pool.usedConns = n.usedConns ∧
        (Pool.Get env n ctx A).pool.freeConnStream = n.freeConnStream)) := by
  have hs := h.shape
  have hs2 := (Reachable.get env ctx A h).shape
  have hfree : n.free A = [] := by simp [Pool.free, hs.freeKeys A hA]
  have hused : n.inUse A = [] := by simp [Pool.inUse, hs.usedKeys A hA]
  have hlt : (n.inUse A).length < n.cfg.MaxConnPerNode := by
    rw [hused]; exact h.max_pos
  have hcases : n.lock = false →
      (∀ e, env.dial A = .error e → Pool.Get env n ctx A =
        { exit := .returned none (some (.wrapf "dial failed: " e)),
          pool := { n with lock := false }, trace := [.lock, .dial A, .unlock] }) ∧
      (∀ tcp, env.dial A = .ok tcp → Pool.Get env n ctx A =
        { exit := .panicked, pool := { n with lock := true, nextPtr := n.nextPtr + 1 },
          trace := [.lock, .dial A] }) := by
    intro hlock
    exact ⟨fun e hd => Pool.GetAux_eq_body env ctx A _ n _
        (fun again => Pool.GetBody_dial_error env again n ctx A e hlock hfree hlt hd),
      fun tcp hd => Pool.GetAux_eq_body env ctx A _ n _
        (fun again => Pool.GetBody_dial_panic env again n ctx A tcp hlock hfree hlt
          (hs.usedKeys A hA) hd)⟩
  refine ⟨?_, ⟨hs2.freeKeys A hA, hs2.usedKeys A hA, hs2.chanKeys A hA⟩, ?_⟩
  · intro cn err hret
    by_cases hlock : n.lock = true
    · have : Pool.Get env n ctx A = { exit := .blockedLock, pool := n, trace := [] } :=
        Pool.GetAux_eq_body env ctx A _ n _ (fun again => by simp [Pool.GetBody, hlock])
      rw [this] at hret
      exact absurd hret (by simp)
    · have hlock2 : n.lock = false := by simpa using hlock
      obtain ⟨h1, h2⟩ := hcases hlock2
      cases hd : env.dial A with
      | error e =>
        rw [h1 e hd] at hret
        simp at hret
        exact hret.1.symm
      | ok tcp =>
        rw [h2 tcp hd] at hret
        exact absurd hret (by simp)
  · intro hlock
    obtain ⟨h1, h2⟩ := hcases hlock
    refine ⟨by rw [hused]; rfl, fun e hd => ?_, fun tcp hd => ?_⟩
    · rw [h1 e hd]
      exact ⟨rfl, rfl, Pool.unlock_eq n hlock⟩
    · rw [h2 tcp hd]
      exact ⟨rfl, rfl, rfl, rfl, rfl, rfl⟩

/-- C16 at a concrete pool: `Get` on `zz` in the fresh pool of `a:1`. -/
theorem get_unknown_address_witness :
    Reachable 1 ["a:1"] ([1].map WithOptMaxConnPerNode) Scenario.pool1 ∧ "zz" ∉ ["a:1"] ∧
    (Pool.Get Scenario.dialOk Scenario.pool1 none "zz").exit = .panicked ∧
    (Pool.Get Scenario.dialOk Scenario.pool1 none "zz").pool.lock = true ∧
    (Pool.Get Scenario.dialFail Scenario.pool1 none "zz").pool = Scenario.pool1 :=
  have hr : Reachable 1 ["a:1"] ([1].map WithOptMaxConnPerNode) Scenario.pool1 := Reachable.init
  have h1 := (get_unknown_address 1 ["a:1"] [1] Scenario.pool1 hr Scenario.dialOk none "zz"
    (by decide)).2.2 (by decide)
  have h2 := (get_unknown_address 1 ["a:1"] [1] Scenario.pool1 hr Scenario.dialFail none "zz"
    (by decide)).2.2 (by decide)
  ⟨hr, by decide, (h1.2.2 7 rfl).1, (h1.2.2 7 rfl).2.2.1,
   (h2.2.1 (.leaf "connection refused") rfl).2.2⟩

/-- C17. Bounded retry after wakeup: a `Get(A)` that finds `A` at capacity
(mutex free, no `Release` in between) calls itself once per notification it
receives, and the receipts plus the notifications left add up to those buffered
at the start: at most that many re-invocations, hence at most `MaxConnPerNode`
on a channel within its capacity. It never dials and changes no free list and
no in-use set, and it ends either parked in `select`, the channel drained, or
returning the error of the context. -/
theorem get_retries_bounded (env : Env) (ctx : Option GoError) (n : Pool) (A : String)
    (hlock : n.lock = false) (hfree : n.free A = [])
    (hfull : n.cfg.MaxConnPerNode ≤ (n.inUse A).length)
    (hcap : n.buffered A ≤ n.cfg.MaxConnPerNode) :
    retries A (Pool.Get env n ctx A).trace + (Pool.Get env n ctx A).pool.buffered A
      = n.buffered A ∧
    retries A (Pool.Get env n ctx A).trace ≤ n.buffered A ∧
    retries A (Pool.Get env n ctx A).trace ≤ n.cfg.MaxConnPerNode ∧
    (∀ a, Event.dial a ∉ (Pool.Get env n ctx A).trace) ∧
    (∀ B, (Pool.Get env n ctx A).pool.free B = n.free B ∧
      (Pool.Get env n ctx A).pool.inUse B = n.inUse B) ∧
    ((Pool.Get env n ctx A).exit = .blockedSelect ∧ ctx = none ∧
        (Pool.Get env n ctx A).pool.buffered A = 0 ∨
      ∃ e, ctx = some e ∧ (Pool.Get env n ctx A).exit = .returned none (some e)) := by
  obtain ⟨h1, h2, h3, h4, h5, -⟩ :=
    Pool.GetAux_at_capacity env ctx A (n.buffered A) n (le_refl _) hlock hfree hfull
  have h2b : retries A (Pool.Get env n ctx A).trace + (Pool.Get env n ctx A).pool.buffered A
      = n.buffered A := h2
  refine ⟨h2, ?_, ?_, h3, fun B => ⟨?_, ?_⟩, h1⟩
  · omega
  · omega
  · unfold Pool.free Pool.Get; rw [h4]
  · unfold Pool.inUse Pool.Get; rw [h5]

/-- C17 at a concrete pool: cap 1, one connection in use and one notification
buffered; the live `Get` calls itself once and parks. -/
theorem get_retries_bounded_witness :
    Scenario.pool1Cycled.lock = false ∧ Scenario.pool1Cycled.free "a:1" = [] ∧
    Scenario.pool1Cycled.cfg.MaxConnPerNode ≤ (Scenario.pool1Cycled.inUse "a:1").length ∧
    Scenario.pool1Cycled.buffered "a:1" ≤ Scenario.pool1Cycled.cfg.MaxConnPerNode ∧
    retries "a:1" (Pool.Get Scenario.dialOk Scenario.pool1Cycled none "a:1").trace = 1 ∧
    retries "a:1" (Pool.Get Scenario.dialOk Scenario.pool1Cycled none "a:1").trace
      + (Pool.Get Scenario.dialOk Scenario.pool1Cycled none "a:1").pool.buffered "a:1"
      = Scenario.pool1Cycled.buffered "a:1" :=
  ⟨by decide, by decide, by decide, by decide, by decide,
   (get_retries_bounded Scenario.dialOk none Scenario.pool1Cycled "a:1" (by decide) (by decide)
     (by decide) (by decide)).1⟩

/-- C19. The context is consulted only when waiting: the `select` of
`Get(ctx, A)` takes the branch of the context only if `Get` found the mutex
free, `free(A)` empty and `|in-use(A)| ≥ MaxConnPerNode`; otherwise the whole
outcome is the one of a live context. With a context already done, `Get` still
returns an idle connection with a nil error when `free(A)` is non-empty, and
still dials when `free(A)` is empty and `|in-use(A)| < MaxConnPerNode`,
returning the new connection or the dial error. -/
theorem context_only_when_waiting (env : Env) (n : Pool) (A : String) (e : GoError) :
    (∀ ctx, Event.ctxDone ∈ (Pool.Get env n ctx A).trace →
      n.lock = false ∧ n.free A = [] ∧ n.cfg.MaxConnPerNode ≤ (n.inUse A).length) ∧
    (¬ (n.free A = [] ∧ n.cfg.MaxConnPerNode ≤ (n.inUse A).length) →
      Pool.Get env n (some e) A = Pool.Get env n none A) ∧
    (n.lock = false → n.Configured A → n.free A ≠ [] →
      ∃ cn, cn ∈ n.free A ∧ (Pool.Get env n (some e) A).exit = .returned (some cn) none) ∧
    (n.lock = false → n.Configured A → n.free A = [] →
      (n.inUse A).length < n.cfg.MaxConnPerNode →
      (Pool.Get env n (some e) A).trace = [.lock, .dial A, .unlock] ∧
      (∀ err, env.dial A = .error err →
        (Pool.Get env n (some e) A).exit = .returned none (some (.wrapf "dial failed: " err))) ∧
      (∀ tcp, env.dial A = .ok tcp →
        (Pool.Get env n (some e) A).exit
          = .returned (some { ptr := n.nextPtr, Addr := A, cnn := tcp, pool := n.self }) none)) := by
  have hfix : (n.lock = true ∨ n.free A ≠ [] ∨ (n.inUse A).length < n.cfg.MaxConnPerNode) →
      ∃ r : Result, Event.ctxDone ∉ r.trace ∧ ∀ ctx, Pool.Get env n ctx A = r := by
    intro h
    obtain ⟨r, hr, hbody, -⟩ := Pool.GetBody_nowait env n A h
    exact ⟨r, hr, fun ctx => Pool.GetAux_eq_body env ctx A _ n r (fun again => hbody again ctx)⟩
  refine ⟨?_, ?_, ?_, ?_⟩
  · intro ctx hctx
    by_contra hne
    have h : n.lock = true ∨ n.free A ≠ [] ∨ (n.inUse A).length < n.cfg.MaxConnPerNode := by
      by_cases h1 : n.lock = true
      · exact Or.inl h1
      · by_cases h2 : n.free A = []
        · right; right
          by_contra h3
          exact hne ⟨by simpa using h1, h2, Nat.not_lt.mp h3⟩
        · exact Or.inr (Or.inl h2)
    obtain ⟨r, hr, hget⟩ := hfix h
    rw [hget ctx] at hctx
    exact hr hctx
  · intro hne
    have h : n.lock = true ∨ n.free A ≠ [] ∨ (n.inUse A).length < n.cfg.MaxConnPerNode := by
      by_cases h2 : n.free A = []
      · right; right
        by_contra h3
        exact hne ⟨h2, Nat.not_lt.mp h3⟩
      · exact Or.inr (Or.inl h2)
    obtain ⟨r, -, hget⟩ := hfix h
    rw [hget (some e), hget none]
  · intro hlock hcfg hne
    cases hl : n.free A with
    | nil => exact absurd hl hne
    | cons cn cnns =>
      rw [Pool.Get_pop env n (some e) A cn cnns _ hlock (Pool.free_cons hl)
        (Pool.used_of_isSome hcfg.2.1)]
      exact ⟨cn, List.mem_cons_self _ _, rfl⟩
  · intro hlock hcfg hfree hlt
    cases hd : env.dial A with
    | error err =>
      have hget := Pool.GetAux_eq_body env (some e) A (n.buffered A) n _
        (fun again => Pool.GetBody_dial_error env again n (some e) A err hlock hfree hlt hd)
      unfold Pool.Get
      rw [hget]
      refine ⟨rfl, fun err2 h2 => ?_, fun tcp h2 => absurd h2 (by simp)⟩
      injection h2 with h2
      subst h2
      rfl
    | ok tcp =>
      have hget := Pool.GetAux_eq_body env (some e) A (n.buffered A) n _
        (fun again => Pool.GetBody_dial_ok env again n (some e) A tcp _ hlock hfree hlt
          (Pool.used_of_isSome hcfg.2.1) hd)
      unfold Pool.Get
      rw [hget]
      refine ⟨rfl, fun err2 h2 => absurd h2 (by simp), fun tcp2 h2 => ?_⟩
      injection h2 with h2
      subst h2
      rfl

/-- C19 at concrete pools: with a cancelled context `Get` still reuses the idle
`connA0`, and the cancelled `Get` that returns the error of the context found
the pool at capacity. -/
theorem context_only_when_waiting_witness :
    Scenario.pool2OneIdle.lock = false ∧ Scenario.pool2OneIdle.Configured "a:1" ∧
    Scenario.pool2OneIdle.free "a:1" ≠ [] ∧
    (∃ cn, cn ∈ Scenario.pool2OneIdle.free "a:1" ∧
      (Pool.Get Scenario.dialFail Scenario.pool2OneIdle (some Scenario.canceled) "a:1").exit
        = .returned (some cn) none) ∧
    Event.ctxDone ∈
      (Pool.Get Scenario.dialFail Scenario.pool1Busy (some Scenario.canceled) "a:1").trace ∧
    (Scenario.pool1Busy.lock = false ∧ Scenario.pool1Busy.free "a:1" = [] ∧
      Scenario.pool1Busy.cfg.MaxConnPerNode ≤ (Scenario.pool1Busy.inUse "a:1").length) :=
  ⟨by decide, ⟨by decide, by decide, by decide⟩, by decide,
   (context_only_when_waiting Scenario.dialFail Scenario.pool2OneIdle "a:1"
     Scenario.canceled).2.2.1 (by decide) ⟨by decide, by decide, by decide⟩ (by decide),
   by decide,
   (context_only_when_waiting Scenario.dialFail Scenario.pool1Busy "a:1"
     Scenario.canceled).1 (some Scenario.canceled) (by decide)⟩

/-- C12 (amended). Lock discipline: in every execution of `Get` entered with
the mutex free, the mutex is not held when a notification is received or the
context is taken in the `select`, nor while `Get` is parked there, and it is
free whenever `Get` or `Release` returns; the dial of `Get` and the channel
send of `Release`, however, happen with the mutex held. -/
theorem lock_discipline (env : Env) (ctx : Option GoError) (n : Pool) (A : String)
    (hlock : n.lock = false) :
    (∀ held ev, (held, ev) ∈ lockedAt false (Pool.Get env n ctx A).trace →
      (ev = .ctxDone ∨ ∃ a, ev = .recv a) → held = false) ∧
    ((Pool.Get env n ctx A).exit = .blockedSelect → (Pool.Get env n ctx A).pool.lock = false) ∧
    (∀ cn err, (Pool.Get env n ctx A).exit = .returned cn err →
      (Pool.Get env n ctx A).pool.lock = false) ∧
    (∀ held a, (held, Event.dial a) ∈ lockedAt false (Pool.Get env n ctx A).trace →
      held = true) ∧
    (∀ c : Conn,
      (∀ cn err, (Pool.Release n c).exit = .returned cn err →
        (Pool.Release n c).pool.lock = false) ∧
      (∀ held a, (held, Event.send a) ∈ lockedAt false (Pool.Release n c).trace →
        held = true)) := by
  obtain ⟨d1, d2, d3, d4⟩ := Pool.Get_disciplined env ctx A n hlock
  refine ⟨d1, d3, d4, d2, fun c => ?_⟩
  rcases Pool.Release_trace n c hlock with ⟨ht, he⟩ | ⟨ht, he, hl⟩
  · refine ⟨fun cn err hr => ?_, fun held a hmem => ?_⟩
    · rw [he] at hr; exact absurd hr (by simp)
    · rw [ht] at hmem; simp [lockedAt, Event.heldAfter] at hmem
  · refine ⟨fun _ _ _ => hl, fun held a hmem => ?_⟩
    rw [ht] at hmem
    simp [lockedAt, Event.heldAfter] at hmem
    exact hmem.1

/-- C12 (amended) at a concrete pool: the `Get` that waits for a notification
in the pool with cap 1, and the `Release` that sends one. -/
theorem lock_discipline_witness :
    Scenario.pool1Cycled.lock = false ∧
    (false, Event.recv "a:1") ∈
      lockedAt false (Pool.Get Scenario.dialOk Scenario.pool1Cycled none "a:1").trace ∧
    (∀ held ev, (held, ev) ∈
        lockedAt false (Pool.Get Scenario.dialOk Scenario.pool1Cycled none "a:1").trace →
      (ev = .ctxDone ∨ ∃ a, ev = .recv a) → held = false) :=
  ⟨by decide, by decide,
   (lock_discipline Scenario.dialOk none Scenario.pool1Cycled "a:1" (by decide)).1⟩

/-- C12 as stated fails: the dial of `Get` on a fresh pool and the send of
`Release` both happen between `Lock` and `Unlock`. -/
theorem lock_held_counterexample :
    (Pool.Get Scenario.dialOk Scenario.pool1 none "a:1").trace = [.lock, .dial "a:1", .unlock] ∧
    (true, Event.dial "a:1") ∈
      lockedAt false (Pool.Get Scenario.dialOk Scenario.pool1 none "a:1").trace ∧
    (Pool.Release Scenario.pool1Busy Scenario.connA0).trace = [.lock, .send "a:1", .unlock] ∧
    (true, Event.send "a:1") ∈
      lockedAt false (Pool.Release Scenario.pool1Busy Scenario.connA0).trace := by
  decide

/-- C11. Close drains everything: with the mutex free and every `range`
yielding each entry once, `Close` calls `Conn.Close` on every connection of
every free list and of every in-use set, whatever errors the transports give
(each result is the one of its own transport and is dropped), returns nil and
leaves the pool, its free lists, in-use sets and channels, as it was. Under
exclusivity, in maps with distinct keys and duplicate-free in-use sets, no
connection is closed twice, so each tracked connection is closed exactly
once. -/
theorem close_drains_everything (env : CloseEnv) (n : Pool) (hfair : env.Fair)
    (hlock : n.lock = false) :
    (Pool.Close env n).exit = .returned none none ∧
    (Pool.Close env n).pool = n ∧
    (∀ A c, c ∈ n.free A ∨ c ∈ n.inUse A → (c, env.closeErr c) ∈ (Pool.Close env n).closes) ∧
    (∀ p, p ∈ (Pool.Close env n).closes → p.2 = env.closeErr p.1) ∧
    (n.Exclusive → (n.freeConns.map Prod.fst).Nodup → (n.usedConns.map Prod.fst).Nodup →
      (∀ A, (n.inUse A).Nodup) →
      ((Pool.Close env n).closes.map Prod.fst).Nodup ∧
      ∀ A c, c ∈ n.free A ∨ c ∈ n.inUse A →
        ((Pool.Close env n).closes.map Prod.fst).count c = 1) := by
  have hclose : Pool.Close env n =
      { exit := .returned none none, pool := { n with lock := false },
        closes := Pool.closeLoops env n } := by
    simp [Pool.Close, hlock]
  have hperm := Pool.closeLoops_perm env n hfair
  have hmem : ∀ A c, c ∈ n.free A ∨ c ∈ n.inUse A →
      c ∈ (Pool.closeLoops env n).map Prod.fst := by
    intro A c hc
    rw [hperm.mem_iff, List.mem_append, List.mem_flatMap, List.mem_flatMap]
    rcases hc with hc | hc
    · left
      cases hg : n.freeConns.get? A with
      | none => simp [Pool.free, hg] at hc
      | some l =>
        refine ⟨(A, l), GoMap.mem_of_get? _ _ _ hg, ?_⟩
        simpa [Pool.free, hg] using hc
    · right
      cases hg : n.usedConns.get? A with
      | none => simp [Pool.inUse, hg] at hc
      | some l =>
        refine ⟨(A, l), GoMap.mem_of_get? _ _ _ hg, ?_⟩
        simpa [Pool.inUse, hg] using hc
  rw [hclose]
  refine ⟨rfl, Pool.unlock_eq n hlock, ?_, fun p hp => Pool.closeLoops_fst env n p hp, ?_⟩
  · intro A c hc
    obtain ⟨p, hp, hpc⟩ := List.mem_map.mp (hmem A c hc)
    have h2 := Pool.closeLoops_fst env n p hp
    have : p = (c, env.closeErr c) := by
      cases p with
      | mk a b =>
        simp only at hpc h2
        subst hpc
        rw [h2]
    rw [← this]
    exact hp
  · intro hex hkf hku hset
    obtain ⟨hexcl, hnodup, haddr⟩ := hex
    have hnd : ((Pool.closeLoops env n).map Prod.fst).Nodup := by
      rw [hperm.nodup_iff]
      refine List.Nodup.append ?_ ?_ ?_
      · exact GoMap.flatMap_nodup n.freeConns hkf hnodup
          (fun A c hc => haddr A c (Or.inl hc))
      · exact GoMap.flatMap_nodup n.usedConns hku hset
          (fun A c hc => haddr A c (Or.inr hc))
      · intro c hcf hcu
        obtain ⟨e1, he1, hc1⟩ := List.mem_flatMap.mp hcf
        obtain ⟨e2, he2, hc2⟩ := List.mem_flatMap.mp hcu
        refine hexcl e1.1 e2.1 c ?_ ?_
        · simp only [Pool.free]
          rw [GoMap.get?_of_mem _ e1.1 e1.2 hkf he1]
          exact hc1
        · simp only [Pool.inUse]
          rw [GoMap.get?_of_mem _ e2.1 e2.2 hku he2]
          exact hc2
    exact ⟨hnd, fun A c hc => List.count_eq_one_of_mem hnd (hmem A c hc)⟩

/-- C11 at a concrete pool: `connA0` idle and `connA1` in use, every `range`
backwards, and the transport of `connA0` failing to close: both are closed,
once each. -/
theorem close_drains_everything_witness :
    Scenario.closeBackwards.Fair ∧ Scenario.pool2OneIdle.lock = false ∧
    (Pool.Close Scenario.closeBackwards Scenario.pool2OneIdle).closes
      = [(Scenario.connA0, some (.leaf "use of closed network connection")),
         (Scenario.connA1, none)] ∧
    (Pool.Close Scenario.closeBackwards Scenario.pool2OneIdle).pool = Scenario.pool2OneIdle ∧
    ((Pool.Close Scenario.closeBackwards Scenario.pool2OneIdle).closes.map Prod.fst).Nodup :=
  have h := close_drains_everything Scenario.closeBackwards Scenario.pool2OneIdle
    Scenario.closeBackwards_fair (by decide)
  have hs := Scenario.pool2OneIdle_reachable.shape
  ⟨Scenario.closeBackwards_fair, by decide, by decide, h.2.1,
   (h.2.2.2.2 Scenario.pool2OneIdle_reachable.exclusive hs.freeDistinct hs.usedDistinct
     hs.usedNodup).1⟩

end Mcgo
